import Mathlib

/-!
Verification of the jain-sms-api SMS relay (controllers/smsController.js).

The JavaScript source is shallowly embedded: pure helpers become Lean
functions over `String`/`List Char`, the bulk-send batch loop becomes a
recursive function that also records an event trace, and the token manager
(`getAuthToken` with its module-level `cachedToken` / `tokenRefreshPromise`
state) becomes a labelled transition system whose atomic steps are exactly
the synchronous segments between `await` points of the JS event loop.
-/

namespace SmsApi

/-- JavaScript truthiness of an optional string value: `undefined`/`null`
and the empty string are falsy, every other string is truthy. -/
def optStrTruthy : Option String → Bool
  | some s => s ≠ ""
  | none => false

/-- The own property names of `Object.prototype`. A `[]` read on a plain
JavaScript object whose own properties miss the key falls back to these
inherited members, each of which reads as a truthy non-string value (a
function, or `Object.prototype` itself for the `__proto__` accessor). -/
def isObjectPrototypeKey (s : String) : Bool :=
  s = "constructor" || s = "__defineGetter__" || s = "__defineSetter__" ||
  s = "hasOwnProperty" || s = "__lookupGetter__" || s = "__lookupSetter__" ||
  s = "isPrototypeOf" || s = "propertyIsEnumerable" || s = "toString" ||
  s = "valueOf" || s = "__proto__" || s = "toLocaleString"

/-- `phone.replace(/\D/g, '')`: keep only ASCII decimal digits. -/
def stripNonDigits (s : String) : String :=
  String.mk (s.data.filter Char.isDigit)

/-- JavaScript `"..."\.split(sep)` for a single-character separator:
splitting the empty string yields `[""]`, separators at the ends yield
empty segments. -/
def jsSplitChar (sep : Char) : List Char → List (List Char)
  | [] => [[]]
  | c :: rest =>
    if c = sep then [] :: jsSplitChar sep rest
    else
      match jsSplitChar sep rest with
      | [] => [[c]]
      | h :: t => (c :: h) :: t

/-- String-level wrapper for `jsSplitChar`. -/
def jsSplit (s : String) (sep : Char) : List String :=
  (jsSplitChar sep s.data).map String.mk

/-- First match of the regex `key([^&]+)` in `text` (as used with keys
`"guid="`, `"errorcode="`, `"seqno="`): scan left to right for the first
position where `key` occurs followed by at least one non-`&` character,
and capture the maximal such run. -/
def findCaptureAux (key : List Char) : List Char → Option (List Char)
  | [] => none
  | c :: rest =>
    if key.isPrefixOf (c :: rest) then
      let run := ((c :: rest).drop key.length).takeWhile (· ≠ '&')
      if run.isEmpty then findCaptureAux key rest
      else some run
    else findCaptureAux key rest

/-- String-level wrapper for `findCaptureAux`. -/
def findCapture (key : String) (text : String) : Option String :=
  (findCaptureAux key.data text.data).map String.mk

/-- The `{#var#}` placeholder marker (braces written with escapes). -/
def placeholderMarker : String := "\x7b#var#\x7d"

/-- Worker for `applyTemplate`: scan the template left to right, replacing
each occurrence of the placeholder marker with the next template value
(missing values substitute the empty string, `vars[idx++] ?? ''`). -/
def applyTemplateAux (vars : List String) (idx : Nat) : List Char → List Char
  | [] => []
  | c :: rest =>
    if placeholderMarker.data.isPrefixOf (c :: rest) then
      (vars.getD idx "").data ++
        applyTemplateAux vars (idx + 1) ((c :: rest).drop placeholderMarker.data.length)
    else
      c :: applyTemplateAux vars idx rest
termination_by l => l.length
decreasing_by
  · simp only [List.length_drop, List.length_cons]
    have : placeholderMarker.data.length = 7 := by decide
    omega
  · simp

/-- `applyTemplate(template, vars)` from the source: replace `{#var#}`
placeholders left to right with successive entries of `vars`. -/
def applyTemplate (template : String) (vars : List String) : String :=
  String.mk (applyTemplateAux vars 0 template.data)

/-- `validatePhoneNumber(phone)`: strip non-digits, then test
`/^[6-9]\d{9}$/` — the cleaned string must be one character in `6`–`9`
followed by exactly nine digits. -/
def validatePhoneNumber (phone : String) : Bool :=
  let cleaned := (stripNonDigits phone).data
  match cleaned with
  | c :: rest => ('6' ≤ c && c ≤ '9') && rest.length = 9 && rest.all Char.isDigit
  | [] => false

/-- `formatPhoneWithCountryCode(phone)`: strip non-digits and prepend
`"91"` unless the cleaned string already starts with it. -/
def formatPhoneWithCountryCode (phone : String) : String :=
  let cleaned := stripNonDigits phone
  if "91".data.isPrefixOf cleaned.data then cleaned else "91" ++ cleaned

/-- The fixed `errorMessages` taxonomy table of `parsePragatiResponse`. -/
def errorMessages : String → Option String
  | "1" => some "Invalid Receiver - Mobile number is invalid or greater than 16 digits"
  | "2" => some "Invalid Sender - Wrong sender ID or greater than 16 digits"
  | "3" => some "Invalid Message - Blank message or template does not match DLT template ID"
  | "4" => some "Service not available - Operator or server down"
  | "5" => some "Authorization failed - Wrong credentials"
  | "6" => some "Contract Expired"
  | "7" => some "Credit Expired - Account balance is zero"
  | "8" => some "Empty Receiver - No recipient number provided"
  | "14" => some "Non-compliant message - Violates TRAI guidelines or template mismatch"
  | _ => none

/-- A value that a `[]` read of a plain-object table can produce: an own
string entry, or a (truthy, non-string) member inherited from
`Object.prototype`. -/
inductive LookupValue
  | str (s : String)
  | protoMember (name : String)
deriving DecidableEq, Repr

/-- `errorMessages[code] || \`Unknown error code: ...\``, with JavaScript
property-lookup semantics: an own entry (a non-empty string, truthy) wins;
otherwise a code naming an `Object.prototype` member reads that inherited
member, which is truthy, so the fallback is NOT taken; only a genuinely
absent key (`undefined`, falsy) produces the synthesized message. -/
def errorMessageLookup (code : String) : LookupValue :=
  match errorMessages code with
  | some m => .str m
  | none =>
    if isObjectPrototypeKey code then .protoMember code
    else .str ("Unknown error code: " ++ code)

/-- One element of the array returned by `parsePragatiResponse`
(`errorMessage` can hold an inherited `Object.prototype` member, see
`errorMessageLookup`). -/
structure PragatiResult where
  success : Bool
  guid : Option String
  errorCode : String
  errorMessage : Option LookupValue
  seqno : Option String
deriving DecidableEq, Repr

/-- The record built for the error code at position `index`
(the body of the `errorCodes.map` callback; `seqnos[index] || null`
maps both a missing and an empty sequence number to `null`). -/
def mkPragatiResult (guid : Option String) (seqnos : List String)
    (index : Nat) (code : String) : PragatiResult :=
  { success := code = "0"
    guid := if code = "0" then guid else none
    errorCode := code
    errorMessage :=
      if code ≠ "0" then some (errorMessageLookup code)
      else none
    seqno :=
      match seqnos.get? index with
      | some s => if s = "" then none else some s
      | none => none }

/-- `errorCodes.map((code, index) => …)` as an index-carrying recursion. -/
def buildResults (guid : Option String) (seqnos : List String) :
    Nat → List String → List PragatiResult
  | _, [] => []
  | index, code :: rest =>
      mkPragatiResult guid seqnos index code :: buildResults guid seqnos (index + 1) rest

/-- `parsePragatiResponse(responseText, recipientCount)` from the source
(`recipientCount` is declared but unused there, so it is omitted here):
extract `guid`, the comma-separated `errorcode` list (defaulting to `"0"`
when absent) and the comma-separated `seqno` list (defaulting to empty),
and build one result per error code. -/
def parsePragatiResponse (responseText : String) : List PragatiResult :=
  let guid := findCapture "guid=" responseText
  let errorCodesStr := (findCapture "errorcode=" responseText).getD "0"
  let seqnos :=
    match findCapture "seqno=" responseText with
    | some s => jsSplit s ','
    | none => []
  let errorCodes := jsSplit errorCodesStr ','
  buildResults guid seqnos 0 errorCodes

/-- A recipient of the bulk-send request body: `phone`, an optional
literal `message` and optional `templateVars`
(`recipient.templateVars || []` makes a missing list empty). -/
structure Recipient where
  phone : String
  message : Option String
  templateVars : List String
deriving DecidableEq, Repr

/-- `recipient.message || (template ? applyTemplate(template, recipient.templateVars || []) : '')`:
a truthy literal message wins, otherwise a truthy template is applied,
otherwise the text is empty. -/
def resolveMessage (template : Option String) (r : Recipient) : String :=
  if optStrTruthy r.message then r.message.getD ""
  else if optStrTruthy template then applyTemplate (template.getD "") r.templateVars
  else ""

/-- The two non-crashing paths of one grouping-loop iteration, on the
object's own properties as an insertion-ordered association list: when the
key is an own property its (truthy) array gets the recipient pushed; when
the lookup is `undefined` (falsy) the property is initialised and the
recipient pushed, adding a new entry at the end. The third path — the key
is not own but inherited from `Object.prototype` — is handled by the
caller `groupLoop`, because there `.push` on the inherited member throws. -/
def insertGroup (key : String) (r : Recipient) :
    List (String × List Recipient) → List (String × List Recipient)
  | [] => [(key, [r])]
  | (k, g) :: rest =>
    if k = key then (k, g ++ [r]) :: rest
    else (k, g) :: insertGroup key r rest

/-- Whether `key` is an own property of the object (association list). -/
def hasOwnKey (gs : List (String × List Recipient)) (key : String) : Bool :=
  gs.any (fun e => e.1 = key)

/-- The grouping loop of `sendBulkSMS` over a plain JavaScript object:
`if (!groupedByMessage[messageText]) groupedByMessage[messageText] = [];
groupedByMessage[messageText].push(recipient)`. The `[]` read consults the
prototype chain: when `messageText` is not an own key but names an
`Object.prototype` member, the lookup is truthy, initialisation is
skipped, and `.push` on the inherited member throws a TypeError that the
outer `catch` of `sendBulkSMS` turns into a failed request. -/
def groupLoop (template : Option String) :
    List (String × List Recipient) → List Recipient →
      Except String (List (String × List Recipient))
  | gs, [] => .ok gs
  | gs, r :: rest =>
    let messageText := resolveMessage template r
    if !hasOwnKey gs messageText && isObjectPrototypeKey messageText then
      .error "groupedByMessage[messageText].push is not a function"
    else
      groupLoop template (insertGroup messageText r gs) rest

/-- The `groupedByMessage` object built by the first loop of `sendBulkSMS`:
the own entries in property-creation order, or the TypeError thrown when a
resolved text names an inherited `Object.prototype` member. -/
def groupByMessage (template : Option String) (recipients : List Recipient) :
    Except String (List (String × List Recipient)) :=
  groupLoop template [] recipients

/-- The own entries the loop builds when it does not crash (every
iteration takes an `insertGroup` path). -/
def groupedOwn (template : Option String) (recipients : List Recipient) :
    List (String × List Recipient) :=
  recipients.foldl (fun gs r => insertGroup (resolveMessage template r) r gs) []

/-- Numeric value of an all-digit string (most significant digit first). -/
def digitsToNat (l : List Char) : Nat :=
  l.foldl (fun acc c => acc * 10 + (c.toNat - '0'.toNat)) 0

/-- Whether a JavaScript object property key is an array index: the
canonical decimal string of an integer in `[0, 2^32 - 2]` (all digits, no
leading zero except for `"0"` itself). `Object.entries` enumerates such
keys first, in ascending numeric order, before string keys in insertion
order. -/
def isArrayIndexKey (s : String) : Bool :=
  match s.data with
  | [] => false
  | c :: rest =>
    (c :: rest).all Char.isDigit &&
      (c ≠ '0' || rest.isEmpty) &&
      digitsToNat (c :: rest) < 4294967295

/-- Insert an entry into a list sorted by ascending numeric key value. -/
def insertByKeyVal (x : String × List Recipient) :
    List (String × List Recipient) → List (String × List Recipient)
  | [] => [x]
  | y :: ys =>
    if digitsToNat x.1.data ≤ digitsToNat y.1.data then x :: y :: ys
    else y :: insertByKeyVal x ys

/-- Sort entries by ascending numeric key value (insertion sort). -/
def sortByKeyVal (l : List (String × List Recipient)) :
    List (String × List Recipient) :=
  l.foldr insertByKeyVal []

/-- `Object.entries(groupedByMessage)` property order per ECMAScript
`OrdinaryOwnPropertyKeys`: array-index keys first in ascending numeric
order, then the remaining string keys in insertion order. -/
def objectEntries (gs : List (String × List Recipient)) :
    List (String × List Recipient) :=
  sortByKeyVal (gs.filter (fun e => isArrayIndexKey e.1)) ++
    gs.filter (fun e => !isArrayIndexKey e.1)

/-- Consecutive chunks of size `n`
(`for (let i = 0; i < len; i += n) slice(i, i + n)`), written with a fuel
argument so that the recursion is structural: each iteration drops at
least one element when `n ≠ 0`, so `l.length` fuel is always enough. -/
def chunksOfAux (n : Nat) : Nat → List Recipient → List (List Recipient)
  | _, [] => []
  | 0, _ :: _ => []
  | fuel + 1, c :: rest =>
    if n = 0 then []
    else (c :: rest).take n :: chunksOfAux n fuel ((c :: rest).drop n)

/-- Consecutive chunks of size `n` of `l`. -/
def chunksOf (n : Nat) (l : List Recipient) : List (List Recipient) :=
  chunksOfAux n l.length l

/-- The batches one `Object.entries` group contributes: the group itself
when it has at most 100 members, else its consecutive chunks of 100. -/
def splitEntry (e : String × List Recipient) : List (String × List Recipient) :=
  if e.2.length ≤ 100 then [(e.1, e.2)]
  else (chunksOf 100 e.2).map (fun c => (e.1, c))

/-- The batch-building loop of `sendBulkSMS`, over the grouped entries:
each `Object.entries` group of at most 100 becomes one batch; a larger
group is split into chunks of 100. -/
def buildBatches (grouped : List (String × List Recipient)) :
    List (String × List Recipient) :=
  (objectEntries grouped).foldr (fun e acc => splitEntry e ++ acc) []

/-- One element of the aggregated `results` array of `sendBulkSMS`
(fields that a given push does not set are `none`). -/
structure SmsResult where
  phone : String
  success : Bool
  guid : Option String := none
  seqno : Option String := none
  error : Option LookupValue := none
  errorCode : Option String := none
deriving DecidableEq, Repr

/-- Behaviour of the gateway `fetch` for one batch call: either an HTTP
response (with `response.ok`, `response.status` and the body text) or a
thrown exception with a message. -/
inductive BatchOutcome
  | http (ok : Bool) (status : Nat) (body : String)
  | exn (message : String)
deriving DecidableEq, Repr

/-- Fallback element used only to totalise `parsedResults[index] || parsedResults[0]`;
`parsePragatiResponse` never returns an empty list, so it is never read. -/
def emptyParsedResult : PragatiResult :=
  { success := false, guid := none, errorCode := "", errorMessage := none, seqno := none }

/-- The push performed for one batch member: `parsedResults[index] || parsedResults[0]`
selects the parsed result, and a success pushes `guid`/`seqno` while a
failure pushes `error`/`errorCode`. -/
def reconcileOne (parsedResults : List PragatiResult) (index : Nat)
    (r : Recipient) : SmsResult :=
  let parsed := (parsedResults.get? index).getD (parsedResults.headD emptyParsedResult)
  if parsed.success then
    { phone := r.phone, success := true, guid := parsed.guid, seqno := parsed.seqno }
  else
    { phone := r.phone, success := false,
      error := parsed.errorMessage, errorCode := some parsed.errorCode }

/-- `group.forEach((recipient, index) => …)` of the ok branch. -/
def reconcileAux (parsedResults : List PragatiResult) :
    Nat → List Recipient → List SmsResult
  | _, [] => []
  | index, r :: rest =>
      reconcileOne parsedResults index r :: reconcileAux parsedResults (index + 1) rest

/-- The body of the per-batch `try`/`catch` of `sendBulkSMS`: an exception
or a non-ok HTTP status records every member of the batch as failed; an ok
status maps the parsed result at each member's position onto that member,
falling back to the first parsed result when the parser produced fewer
results than members. -/
def sendOneBatch (outcome : BatchOutcome) (group : List Recipient) : List SmsResult :=
  match outcome with
  | .exn msg =>
      group.map fun r => { phone := r.phone, success := false, error := some (.str msg) }
  | .http ok status body =>
      let parsedResults := parsePragatiResponse body
      if !ok then
        group.map fun r =>
          { phone := r.phone, success := false,
            error := some (.str ("HTTP " ++ toString status ++ ": " ++ body)) }
      else
        reconcileAux parsedResults 0 group

/-- Observable dispatch event: the batch call at a global batch index, or
the fixed 500 ms pacing sleep. -/
inductive DispatchEvent
  | send (batchIndex : Nat)
  | delay
deriving DecidableEq, Repr

/-- The batch loop of `sendBulkSMS`, started at batch index `i`: for each
batch, the gateway call (whose behaviour `oracle` gives by batch index)
followed unconditionally by the pacing sleep. Returns the aggregated
results and the event trace. -/
def runBatchesAux (oracle : Nat → BatchOutcome) (i : Nat) :
    List (String × List Recipient) → List SmsResult × List DispatchEvent
  | [] => ([], [])
  | b :: bs =>
      let here := sendOneBatch (oracle i) b.2
      let rest := runBatchesAux oracle (i + 1) bs
      (here ++ rest.1, .send i :: .delay :: rest.2)

/-- The batch loop of `sendBulkSMS` from batch index 0. -/
def runBatches (oracle : Nat → BatchOutcome)
    (batches : List (String × List Recipient)) :
    List SmsResult × List DispatchEvent :=
  runBatchesAux oracle 0 batches

/-- Environment configuration read by `sendBulkSMS`, plus the outcome of
`await getAuthToken()` abstracted as a value-or-thrown-error. -/
structure Env where
  apiBaseUrl : Option String
  senderId : Option String
  authToken : Except String String
deriving Repr

/-- The JSON body of a bulk-send request (`recipients = none` models a
missing or non-array field). -/
structure BulkBody where
  template : Option String
  templateid : Option String
  recipients : Option (List Recipient)
deriving Repr

/-- Result of `sendBulkSMS`: an early 400 response, an error thrown to the
`next` middleware, or the final JSON summary response. -/
inductive BulkResponse
  | badRequest (error : String) (message : String)
  | thrown (message : String)
  | ok (message : String) (total successful failed : Nat) (results : List SmsResult)
deriving DecidableEq, Repr

/-- The per-recipient validation loop of `sendBulkSMS`: the first
recipient with a falsy or invalid phone yields the phone 400, then the
first with neither a truthy message nor a truthy template yields the
recipient 400. -/
def validateRecipients (template : Option String) :
    List Recipient → Option BulkResponse
  | [] => none
  | r :: rest =>
    if !(optStrTruthy (some r.phone) && validatePhoneNumber r.phone) then
      some (.badRequest "Invalid phone number"
        ("Invalid phone number: " ++ (if r.phone = "" then "missing" else r.phone)))
    else if !optStrTruthy r.message && !optStrTruthy template then
      some (.badRequest "Invalid recipient"
        "Each recipient must have a message, or provide a template")
    else validateRecipients template rest

/-- `sendBulkSMS(req, res, next)`: request validation, the configuration
check, token acquisition, grouping, batching, the batch loop, and the
summary response. The returned event list is the dispatch trace (empty
whenever the function returns or throws before the batch loop). -/
def sendBulkSMS (env : Env) (oracle : Nat → BatchOutcome) (body : BulkBody) :
    BulkResponse × List DispatchEvent :=
  match body.recipients with
  | none => (.badRequest "Invalid request" "recipients must be a non-empty array", [])
  | some recipients =>
    if recipients.length = 0 then
      (.badRequest "Invalid request" "recipients must be a non-empty array", [])
    else if recipients.length > 1000 then
      (.badRequest "Too many recipients" "Maximum 1000 recipients per request", [])
    else
      match validateRecipients body.template recipients with
      | some resp => (resp, [])
      | none =>
        if !(optStrTruthy env.apiBaseUrl && optStrTruthy env.senderId &&
            optStrTruthy body.templateid) then
          (.thrown "SMS configuration incomplete", [])
        else
          match env.authToken with
          | .error e => (.thrown e, [])
          | .ok _ =>
            match groupByMessage body.template recipients with
            | .error e => (.thrown e, [])
            | .ok grouped =>
            let batches := buildBatches grouped
            let (results, events) := runBatches oracle batches
            let successCount := (results.filter (·.success)).length
            let failedCount := results.length - successCount
            (.ok ("Sent " ++ toString successCount ++ " SMS, " ++
                  toString failedCount ++ " failed")
              results.length successCount failedCount results, events)

/-- `sendSingleSMS(req, res, next)`: validate `phone`/`message`, then
normalise the body to `{ recipients: [{ phone, message }] }` (no
`template`, no `templateid`) and delegate to `sendBulkSMS`. -/
def sendSingleSMS (env : Env) (oracle : Nat → BatchOutcome)
    (phone message : String) : BulkResponse × List DispatchEvent :=
  if !(optStrTruthy (some phone) && optStrTruthy (some message)) then
    (.badRequest "Invalid request" "phone and message are required", [])
  else if !validatePhoneNumber phone then
    (.badRequest "Invalid phone number"
      "Phone number must be a valid 10-digit Indian mobile number", [])
  else
    sendBulkSMS env oracle
      { template := none, templateid := none,
        recipients := some [{ phone := phone, message := some message, templateVars := [] }] }

/-! ### The token manager (`getAuthToken`)

`getAuthToken` reads and writes two module-level variables, `cachedToken`
(`{ token, expiry }`) and `tokenRefreshPromise`. Its behaviour under
concurrent callers is modelled as a labelled transition system: each
atomic step is one synchronous segment of JavaScript between `await`
points. In particular the segment that observes `tokenRefreshPromise ===
null`, assigns the new promise and issues the generate `fetch` is a single
step, because the source contains no `await` between the null check and
the assignment. Gateway responses arrive as separate labelled steps.
`Date.now()` is held fixed at `now` for the run (the claims concern a
single burst of calls). -/

/-- The `cachedToken` record `{ token, expiry }`. -/
structure Credential where
  token : Option String
  expiry : Nat
deriving DecidableEq, Repr

/-- `cachedToken.token && Date.now() < cachedToken.expiry`. -/
def credValid (c : Credential) (now : Nat) : Bool :=
  optStrTruthy c.token && decide (now < c.expiry)

/-- Six days in milliseconds: the safety-margin lifetime cached on refresh. -/
def refreshMarginMs : Nat := 6 * 24 * 60 * 60 * 1000

/-- Completion value of one `getAuthToken` call: the returned token or the
message of the raised error. -/
inductive RunResult
  | ok (token : String)
  | err (message : String)
deriving DecidableEq, Repr

/-- Where one caller of `getAuthToken` currently is:
`start` — about to run the initial synchronous segment;
`waitOwner` — it created the refresh promise and is at `return await tokenRefreshPromise`;
`waitOther` — it found a promise in flight and is at `await tokenRefreshPromise`;
`resumeOwner r`/`resumeOther r` — the promise settled with `r` and the
caller's continuation is queued but has not run;
`done r` — the call completed with `r`. -/
inductive CallerPc
  | start
  | waitOwner
  | waitOther
  | resumeOwner (r : RunResult)
  | resumeOther (r : RunResult)
  | done (r : RunResult)
deriving DecidableEq, Repr

/-- Where the in-flight refresh body (the async IIFE) is suspended:
at the generate `fetch`, or at the enable `fetch` holding the new token. -/
inductive RefreshPc
  | awaitGen
  | awaitAct (token : String)
deriving DecidableEq, Repr

/-- Global state: fixed clock, the two module variables, I/O counters for
the generate call, the enable call and `saveTokenToDisk`, whether
`PRAGATI_API_BASE_URL`/`PRAGATI_API_KEY` are configured, and the callers.
`refresher.isSome` is `tokenRefreshPromise !== null`. -/
structure TokenState where
  now : Nat
  cachedToken : Credential
  refresher : Option RefreshPc
  genCalls : Nat
  actCalls : Nat
  diskWrites : Nat
  configOk : Bool
  callers : List CallerPc
deriving DecidableEq, Repr

/-- When the refresh promise settles, its `finally` has already cleared
`tokenRefreshPromise`; every awaiting caller's continuation is enqueued
with the settlement value. -/
def settleWaiters (r : RunResult) (cs : List CallerPc) : List CallerPc :=
  cs.map fun pc =>
    match pc with
    | .waitOwner => .resumeOwner r
    | .waitOther => .resumeOther r
    | other => other

/-- Transition labels: run caller `i`'s pending synchronous segment, or
deliver a gateway response to the suspended refresh body. -/
inductive TLabel
  | caller (i : Nat)
  | genOk (token : String)
  | genFail (message : String)
  | actOk
  | actFail (message : String)
deriving DecidableEq, Repr

/-- The synchronous segment the refresh body runs when starting: the
promise is assigned and the generate `fetch` is issued. -/
def beginRefresh (s : TokenState) : TokenState :=
  { s with refresher := some .awaitGen, genCalls := s.genCalls + 1 }

/-- Run caller `i`'s pending synchronous segment of `getAuthToken`.
`none` when caller `i` does not exist or has nothing to run. -/
def stepCaller (s : TokenState) (i : Nat) : Option TokenState :=
  match s.callers.get? i with
  | none => none
  | some .start =>
      if credValid s.cachedToken s.now then
        -- return cachedToken.token
        some { s with callers := s.callers.set i (.done (.ok (s.cachedToken.token.getD ""))) }
      else if s.refresher.isSome then
        -- await tokenRefreshPromise
        some { s with callers := s.callers.set i .waitOther }
      else if !s.configOk then
        some { s with callers :=
          s.callers.set i (.done (.err "PRAGATI_API_BASE_URL or PRAGATI_API_KEY not configured")) }
      else
        some { beginRefresh s with callers := s.callers.set i .waitOwner }
  | some (.resumeOwner r) =>
      -- the owner returns the promise's settlement value directly
      some { s with callers := s.callers.set i (.done r) }
  | some (.resumeOther r) =>
      match r with
      | .err m =>
          -- `await tokenRefreshPromise` rethrows the rejection
          some { s with callers := s.callers.set i (.done (.err m)) }
      | .ok _ =>
          if credValid s.cachedToken s.now then
            some { s with callers :=
              s.callers.set i (.done (.ok (s.cachedToken.token.getD ""))) }
          else if !s.configOk then
            some { s with callers :=
              s.callers.set i (.done (.err "PRAGATI_API_BASE_URL or PRAGATI_API_KEY not configured")) }
          else
            -- falls through past the wait branch and starts a new refresh
            -- without re-checking tokenRefreshPromise
            some { beginRefresh s with callers := s.callers.set i .waitOwner }
  | some _ => none

/-- The refresh body settles its promise with `r`: `finally` clears
`tokenRefreshPromise`, and all awaiting callers are queued to resume. -/
def settleRefresh (s : TokenState) (r : RunResult) : TokenState :=
  { s with refresher := none, callers := settleWaiters r s.callers }

/-- One labelled transition: `none` when the label is not enabled. -/
def step (l : TLabel) (s : TokenState) : Option TokenState :=
  match l with
  | .caller i => stepCaller s i
  | .genOk t =>
      match s.refresher with
      | some .awaitGen =>
          if t = "" then
            -- `if (!token) throw new Error('Token not found in API response')`
            some (settleRefresh s (.err "Token not found in API response"))
          else
            -- the enable fetch is issued and the body suspends on it
            some { s with refresher := some (.awaitAct t), actCalls := s.actCalls + 1 }
      | _ => none
  | .genFail m =>
      match s.refresher with
      | some .awaitGen => some (settleRefresh s (.err m))
      | _ => none
  | .actOk =>
      match s.refresher with
      | some (.awaitAct t) =>
          -- cachedToken = { token, expiry: now + 6 days }; saveTokenToDisk
          some (settleRefresh
            { s with cachedToken := { token := some t, expiry := s.now + refreshMarginMs },
                     diskWrites := s.diskWrites + 1 }
            (.ok t))
      | _ => none
  | .actFail m =>
      match s.refresher with
      | some (.awaitAct _) => some (settleRefresh s (.err m))
      | _ => none

/-- Run a list of labelled transitions from a state. -/
def runLabels : List TLabel → TokenState → Option TokenState
  | [], s => some s
  | l :: ls, s => (step l s).bind (runLabels ls)

/-- Initial state: fixed clock `now`, the credential loaded at startup,
no refresh in flight, no gateway or disk traffic yet, and `n` concurrent
callers about to enter `getAuthToken`. -/
def initTokenState (now : Nat) (c0 : Credential) (configOk : Bool)
    (n : Nat) : TokenState :=
  { now := now, cachedToken := c0, refresher := none,
    genCalls := 0, actCalls := 0, diskWrites := 0,
    configOk := configOk, callers := List.replicate n .start }

/-! ### Spec-side vocabulary -/

/-- Spec-side reading of the validation rule: after stripping all
non-digit characters the string is exactly 10 characters long and its
first character is a digit in `6`–`9`. -/
def specTenDigitMobile (s : String) : Prop :=
  s.length = 10 ∧
    match s.data with
    | c :: _ => '6' ≤ c ∧ c ≤ '9'
    | [] => False

/-! ### C8 — phone validation and wire formatting -/

/-- C8 counterexample: the claim asserts that `"+91 9876543210"` passes
validation, but stripping non-digits leaves the 12-digit string
`"919876543210"`, which `/^[6-9]\d{9}$/` rejects, so `validatePhoneNumber`
returns `false` on it. -/
theorem claim_c8_counterexample :
    validatePhoneNumber "+91 9876543210" = false ∧
    stripNonDigits "+91 9876543210" = "919876543210" ∧
    (stripNonDigits "+91 9876543210").length = 12 := by
  refine ⟨by decide, by decide, by decide⟩

/-- C8 (amended): validation succeeds iff the string after stripping all
non-digit characters is exactly 10 digits with first digit in 6–9;
`"98765"`, `"5876543210"` and also `"+91 9876543210"` (12 digits after
stripping) fail validation, `"9876543210"` passes, and formatting for the
wire strips non-digits and prepends `"91"` iff it is not already a prefix,
so `"+91 9876543210"` still formats to `"919876543210"`. -/
theorem claim_c8_amended :
    (∀ phone, validatePhoneNumber phone = true ↔ specTenDigitMobile (stripNonDigits phone)) ∧
    validatePhoneNumber "98765" = false ∧
    validatePhoneNumber "5876543210" = false ∧
    validatePhoneNumber "+91 9876543210" = false ∧
    validatePhoneNumber "9876543210" = true ∧
    formatPhoneWithCountryCode "+91 9876543210" = "919876543210" ∧
    ∀ phone, formatPhoneWithCountryCode phone =
      if "91".data.isPrefixOf (stripNonDigits phone).data then stripNonDigits phone
      else "91" ++ stripNonDigits phone := by
  refine ⟨?_, by decide, by decide, by decide, by decide, by decide, fun phone => rfl⟩
  intro phone
  have hd : (stripNonDigits phone).data = phone.data.filter Char.isDigit := rfl
  have hlen : (stripNonDigits phone).length = (phone.data.filter Char.isDigit).length := rfl
  unfold validatePhoneNumber specTenDigitMobile
  rw [hd, hlen]
  cases hc : phone.data.filter Char.isDigit with
  | nil => simp
  | cons c rest =>
    have hall : rest.all Char.isDigit = true := by
      refine List.all_eq_true.mpr fun x hx => ?_
      have hxmem : x ∈ phone.data.filter Char.isDigit := by
        rw [hc]; exact List.mem_cons_of_mem c hx
      exact (List.mem_filter.mp hxmem).2
    simp only [hall, Bool.and_true, Bool.and_eq_true, decide_eq_true_eq, List.length_cons]
    constructor
    · rintro ⟨⟨h1, h2⟩, h3⟩
      exact ⟨by omega, h1, h2⟩
    · rintro ⟨h1, h2, h3⟩
      exact ⟨⟨h2, h3⟩, by omega⟩

/-- C8 witness: the amended validation rule evaluated at two concrete
phones. -/
theorem claim_c8_witness :
    validatePhoneNumber "98765" = false ∧ validatePhoneNumber "9876543210" = true :=
  ⟨claim_c8_amended.2.1, claim_c8_amended.2.2.2.2.1⟩

/-! ### C9 — pacing delay placement -/

/-- C9 counterexample: with a single batch the claim requires the pacing
delay to occur `n - 1 = 0` times and never after the final batch, but the
batch loop awaits the 500 ms sleep unconditionally after every batch, so
the trace of a one-batch run is `[send 0, delay]`: it contains one delay,
and that delay follows the final batch call. -/
theorem claim_c9_counterexample :
    (runBatches (fun _ => .exn "network error")
        [("msg", [{ phone := "9876543210", message := some "msg", templateVars := [] }])]).2 =
      [.send 0, .delay] ∧
    [DispatchEvent.send 0, DispatchEvent.delay].count .delay = 1 ∧
    ¬ [DispatchEvent.send 0, DispatchEvent.delay].count .delay = 1 - 1 ∧
    [DispatchEvent.send 0, DispatchEvent.delay].getLast? = some .delay := by
  refine ⟨rfl, by decide, by decide, by decide⟩

/-- C9 (amended): the pacing delay occurs after every batch call including
the final one — the trace of an `n`-batch run has length `2n`, and for
every `k < n` the event at position `2k` is the `k`-th batch call and the
event at position `2k + 1` is a delay (so the trace holds exactly `n`
delays, one of them after the final batch). -/
theorem claim_c9_amended :
    ∀ (oracle : Nat → BatchOutcome) (bs : List (String × List Recipient)) (i : Nat),
      (runBatchesAux oracle i bs).2.length = 2 * bs.length ∧
      ∀ k, k < bs.length →
        (runBatchesAux oracle i bs).2.get? (2 * k) = some (.send (i + k)) ∧
        (runBatchesAux oracle i bs).2.get? (2 * k + 1) = some .delay := by
  intro oracle bs
  induction bs with
  | nil => intro i; refine ⟨rfl, fun k hk => absurd hk (by simp)⟩
  | cons b bs ih =>
    intro i
    have ih' := ih (i + 1)
    refine ⟨?_, ?_⟩
    · simp only [runBatchesAux, List.length_cons, ih'.1]; omega
    · intro k hk
      cases k with
      | zero => exact ⟨rfl, rfl⟩
      | succ k =>
        have hk' : k < bs.length := by simpa using hk
        have hik : i + 1 + k = i + (k + 1) := by omega
        have h := ih'.2 k hk'
        rw [hik] at h
        have e2 : 2 * (k + 1) = 2 * k + 1 + 1 := by omega
        rw [e2]
        simp only [runBatchesAux, List.get?_cons_succ]
        exact ⟨h.1, h.2⟩

/-- C9 witness: a two-batch run — the event at position 2 is the second
batch call and the event right after it is a pacing delay, i.e. a delay
also follows the final batch. -/
theorem claim_c9_witness :
    (runBatchesAux (fun _ => BatchOutcome.exn "x") 0 [("a", []), ("b", [])]).2.get? 2 =
      some (.send 1) ∧
    (runBatchesAux (fun _ => BatchOutcome.exn "x") 0 [("a", []), ("b", [])]).2.get? 3 =
      some .delay :=
  ⟨((claim_c9_amended (fun _ => BatchOutcome.exn "x") [("a", []), ("b", [])] 0).2
      1 (by decide)).1,
   ((claim_c9_amended (fun _ => BatchOutcome.exn "x") [("a", []), ("b", [])] 0).2
      1 (by decide)).2⟩

/-! ### C10 — the single-SMS endpoint can never dispatch -/

/-- C10: for a valid phone and non-empty message, `sendSingleSMS`
normalises the body to `{ recipients: [{ phone, message }] }` with no
`templateid` and delegates to `sendBulkSMS`, whose configuration check
`!API_BASE_URL || !SENDER_ID || !templateid` then always throws
`'SMS configuration incomplete'` — whatever the environment holds — so no
batch is ever dispatched (the event trace is empty). -/
theorem claim_c10 (env : Env) (oracle : Nat → BatchOutcome) (phone message : String)
    (hv : validatePhoneNumber phone = true) (hm : message ≠ "") :
    sendSingleSMS env oracle phone message =
      sendBulkSMS env oracle
        { template := none, templateid := none,
          recipients := some [{ phone := phone, message := some message, templateVars := [] }] } ∧
    sendSingleSMS env oracle phone message =
      (.thrown "SMS configuration incomplete", ([] : List DispatchEvent)) := by
  have hp : phone ≠ "" := by
    intro h
    rw [h] at hv
    exact absurd hv (by decide)
  have hdeleg : sendSingleSMS env oracle phone message =
      sendBulkSMS env oracle
        { template := none, templateid := none,
          recipients := some [{ phone := phone, message := some message, templateVars := [] }] } := by
    unfold sendSingleSMS
    simp [optStrTruthy, hp, hm, hv]
  refine ⟨hdeleg, hdeleg.trans ?_⟩
  unfold sendBulkSMS
  simp [validateRecipients, optStrTruthy, hp, hm, hv]

/-- C10 witness: a fully configured environment, a live gateway, phone
`"9876543210"` and message `"hi"` still yield the configuration error and
an empty dispatch trace. -/
theorem claim_c10_witness :
    validatePhoneNumber "9876543210" = true ∧
    sendSingleSMS { apiBaseUrl := some "http://gw", senderId := some "SND", authToken := .ok "tok" }
        (fun _ => .http true 200 "guid=G&errorcode=0") "9876543210" "hi" =
      (.thrown "SMS configuration incomplete", ([] : List DispatchEvent)) :=
  ⟨by decide,
   (claim_c10 { apiBaseUrl := some "http://gw", senderId := some "SND", authToken := .ok "tok" }
     (fun _ => .http true 200 "guid=G&errorcode=0") "9876543210" "hi" (by decide) (by decide)).2⟩

/-! ### C3 — a valid cached credential is returned with no I/O -/

/-- C3: when the cached credential's token is present and truthy and the
clock is strictly before its expiry, a caller entering `getAuthToken`
completes in its first synchronous segment with that cached token, and
the state is otherwise untouched: no generate call, no enable call, no
disk write, no refresh started, credential unchanged. -/
theorem claim_c3 (s : TokenState) (i : Nat) (t : String)
    (hv : credValid s.cachedToken s.now = true)
    (htok : s.cachedToken.token = some t)
    (hpc : s.callers.get? i = some .start) :
    step (.caller i) s = some { s with callers := s.callers.set i (.done (.ok t)) } ∧
    ∀ s', step (.caller i) s = some s' →
      s'.genCalls = s.genCalls ∧ s'.actCalls = s.actCalls ∧
      s'.diskWrites = s.diskWrites ∧ s'.cachedToken = s.cachedToken ∧
      s'.refresher = s.refresher := by
  have hstep : step (.caller i) s =
      some { s with callers := s.callers.set i (.done (.ok t)) } := by
    have h1 : step (.caller i) s = stepCaller s i := rfl
    rw [h1]
    unfold stepCaller
    rw [hpc]
    simp [hv, htok]
  refine ⟨hstep, fun s' hs' => ?_⟩
  rw [hstep] at hs'
  cases hs'
  exact ⟨rfl, rfl, rfl, rfl, rfl⟩

/-- C3 witness: a concrete state with a valid cached token `"tok"` and one
fresh caller; the step returns the cached token and changes nothing else. -/
theorem claim_c3_witness :
    credValid { token := some "tok", expiry := 5 } 0 = true ∧
    step (.caller 0)
        { now := 0, cachedToken := { token := some "tok", expiry := 5 }, refresher := none,
          genCalls := 0, actCalls := 0, diskWrites := 0, configOk := true,
          callers := [.start] } =
      some { now := 0, cachedToken := { token := some "tok", expiry := 5 }, refresher := none,
             genCalls := 0, actCalls := 0, diskWrites := 0, configOk := true,
             callers := [.done (.ok "tok")] } :=
  ⟨by decide,
   (claim_c3
     { now := 0, cachedToken := { token := some "tok", expiry := 5 }, refresher := none,
       genCalls := 0, actCalls := 0, diskWrites := 0, configOk := true,
       callers := [.start] } 0 "tok" (by decide) rfl rfl).1⟩

/-! ### C5 — the response parser -/

/-- The `errorcode` list extracted by the parser (defaulting to `"0"`). -/
def parsedErrorCodes (text : String) : List String :=
  jsSplit ((findCapture "errorcode=" text).getD "0") ','

/-- The `seqno` list extracted by the parser (defaulting to empty). -/
def parsedSeqnos (text : String) : List String :=
  match findCapture "seqno=" text with
  | some s => jsSplit s ','
  | none => []

theorem parse_eq_buildResults (text : String) :
    parsePragatiResponse text =
      buildResults (findCapture "guid=" text) (parsedSeqnos text) 0 (parsedErrorCodes text) := rfl

theorem buildResults_length (guid : Option String) (seqnos : List String) :
    ∀ (codes : List String) (i : Nat),
      (buildResults guid seqnos i codes).length = codes.length := by
  intro codes
  induction codes with
  | nil => intro i; rfl
  | cons c cs ih => intro i; simp [buildResults, ih (i + 1)]

theorem buildResults_get? (guid : Option String) (seqnos : List String) :
    ∀ (codes : List String) (i k : Nat),
      (buildResults guid seqnos i codes).get? k =
        (codes.get? k).map (mkPragatiResult guid seqnos (i + k)) := by
  intro codes
  induction codes with
  | nil => intro i k; rfl
  | cons c cs ih =>
    intro i k
    cases k with
    | zero => rfl
    | succ k =>
      have := ih (i + 1) k
      simp only [buildResults, List.get?_cons_succ, this]
      have harith : i + 1 + k = i + (k + 1) := by omega
      rw [harith]

theorem jsSplitChar_ne_nil (sep : Char) : ∀ l : List Char, jsSplitChar sep l ≠ [] := by
  intro l
  induction l with
  | nil => simp [jsSplitChar]
  | cons c rest ih =>
    simp only [jsSplitChar]
    split
    · simp
    · split
      · simp
      · simp

theorem parsePragatiResponse_ne_nil (text : String) : parsePragatiResponse text ≠ [] := by
  rw [parse_eq_buildResults]
  intro h
  have hlen := buildResults_length (findCapture "guid=" text) (parsedSeqnos text)
    (parsedErrorCodes text) 0
  rw [h] at hlen
  have : parsedErrorCodes text = [] := List.length_eq_zero.mp hlen.symm
  have hmap : (jsSplitChar ',' ((findCapture "errorcode=" text).getD "0").data).map String.mk = [] := this
  have := List.map_eq_nil_iff.mp hmap
  exact jsSplitChar_ne_nil ',' _ this

/-- C5 counterexample: the claim says an unrecognized code yields a
synthesized unknown-error-code message, but `errorMessages[code]` is a
prototype-chain lookup on a plain object literal: the code `"toString"` is
not in the table, yet it reads the inherited `Object.prototype.toString`
member, which is truthy, so `errorMessages[code] || ...` keeps the
inherited member and the synthesized message is never built. -/
theorem claim_c5_counterexample :
    parsePragatiResponse "errorcode=toString" =
      [{ success := false, guid := none, errorCode := "toString",
         errorMessage := some (.protoMember "toString"), seqno := none }] ∧
    errorMessages "toString" = none ∧
    some (LookupValue.protoMember "toString") ≠
      some (.str ("Unknown error code: " ++ "toString")) := by
  refine ⟨by decide, by decide, by decide⟩

/-- C5 (amended): for every raw gateway response text the parser yields
exactly one result per extracted error code, in order; the result at
position `k` carries code `k`, is a success exactly when that code is
`"0"` (then it carries the shared extracted `guid` and no error message),
otherwise carries the fixed-taxonomy message when the code is in the
table; an unrecognized code yields the synthesized unknown-code message
unless it names an inherited `Object.prototype` member (`"toString"`,
`"constructor"`, …), in which case that truthy inherited member becomes
the error message; every result is positionally paired with the `k`-th
extracted sequence number (absent when the sequence list is shorter).
The spec's worked example is checked verbatim. -/
theorem claim_c5_amended (text : String) :
    (parsePragatiResponse text).length = (parsedErrorCodes text).length ∧
    (∀ k code, (parsedErrorCodes text).get? k = some code →
      ∃ r, (parsePragatiResponse text).get? k = some r ∧
        r.errorCode = code ∧
        (r.success = true ↔ code = "0") ∧
        (code = "0" → r.guid = findCapture "guid=" text ∧ r.errorMessage = none) ∧
        (code ≠ "0" → r.guid = none) ∧
        (code ≠ "0" → ∀ m, errorMessages code = some m → r.errorMessage = some (.str m)) ∧
        (code ≠ "0" → errorMessages code = none → isObjectPrototypeKey code = false →
          r.errorMessage = some (.str ("Unknown error code: " ++ code))) ∧
        (code ≠ "0" → errorMessages code = none → isObjectPrototypeKey code = true →
          r.errorMessage = some (.protoMember code)) ∧
        (∀ sq, (parsedSeqnos text).get? k = some sq → sq ≠ "" → r.seqno = some sq) ∧
        ((parsedSeqnos text).length ≤ k → r.seqno = none)) ∧
    parsePragatiResponse "guid=G1&errorcode=0,7,0&seqno=911,912,913" =
      [{ success := true, guid := some "G1", errorCode := "0",
         errorMessage := none, seqno := some "911" },
       { success := false, guid := none, errorCode := "7",
         errorMessage := some (.str "Credit Expired - Account balance is zero"),
         seqno := some "912" },
       { success := true, guid := some "G1", errorCode := "0",
         errorMessage := none, seqno := some "913" }] := by
  refine ⟨?_, ?_, by decide⟩
  · rw [parse_eq_buildResults]
    exact buildResults_length _ _ _ 0
  · intro k code hk
    rw [parse_eq_buildResults, buildResults_get? _ _ _ 0 k, hk]
    refine ⟨mkPragatiResult (findCapture "guid=" text) (parsedSeqnos text) (0 + k) code,
      rfl, rfl, ?_, ?_, ?_, ?_, ?_, ?_, ?_, ?_⟩
    · simp [mkPragatiResult]
    · intro h0; simp [mkPragatiResult, h0]
    · intro h0; simp [mkPragatiResult, h0]
    · intro h0 m hm
      simp [mkPragatiResult, h0, errorMessageLookup, hm]
    · intro h0 hm hp
      simp [mkPragatiResult, h0, errorMessageLookup, hm, hp]
    · intro h0 hm hp
      simp [mkPragatiResult, h0, errorMessageLookup, hm, hp]
    · intro sq hsq hne
      have hz : (0 : Nat) + k = k := Nat.zero_add k
      simp only [mkPragatiResult, hz, hsq]
      simp [hne]
    · intro hle
      have hz : (0 : Nat) + k = k := Nat.zero_add k
      have hnone : (parsedSeqnos text).get? k = none := List.get?_eq_none.mpr hle
      simp only [mkPragatiResult, hz, hnone]

/-- C5 witness: the amended parser theorem applied to the worked example
text at position 1 (code `"7"`), plus its length consequence. -/
theorem claim_c5_witness :
    (parsedErrorCodes "guid=G1&errorcode=0,7,0&seqno=911,912,913").get? 1 = some "7" ∧
    (parsePragatiResponse "guid=G1&errorcode=0,7,0&seqno=911,912,913").length = 3 :=
  ⟨by decide,
   ((claim_c5_amended "guid=G1&errorcode=0,7,0&seqno=911,912,913").1).trans (by decide)⟩

/-! ### C6 — per-index reconciliation with first-result fallback -/

/-- Spec-side outcome construction: the `SmsResult` that the reconciler
pushes for recipient `r` from parsed result `p`. -/
def specOutcome (r : Recipient) (p : PragatiResult) : SmsResult :=
  if p.success then
    { phone := r.phone, success := true, guid := p.guid, seqno := p.seqno }
  else
    { phone := r.phone, success := false,
      error := p.errorMessage, errorCode := some p.errorCode }

theorem reconcileAux_length (ps : List PragatiResult) :
    ∀ (g : List Recipient) (i : Nat), (reconcileAux ps i g).length = g.length := by
  intro g
  induction g with
  | nil => intro i; rfl
  | cons r rest ih => intro i; simp [reconcileAux, ih (i + 1)]

theorem reconcileAux_get? (ps : List PragatiResult) :
    ∀ (g : List Recipient) (i k : Nat),
      (reconcileAux ps i g).get? k = (g.get? k).map (reconcileOne ps (i + k)) := by
  intro g
  induction g with
  | nil => intro i k; rfl
  | cons r rest ih =>
    intro i k
    cases k with
    | zero => rfl
    | succ k =>
      have := ih (i + 1) k
      simp only [reconcileAux, List.get?_cons_succ, this]
      have harith : i + 1 + k = i + (k + 1) := by omega
      rw [harith]

/-- C6: on a successfully sent batch the outcome list has one entry per
batch member; the entry at position `k` is built from the parsed result at
position `k` when one exists, and when the parser produced fewer results
than members, every member past the end receives the outcome built from
the first parsed result — whose success flag is whatever the first code
indicated. The parser provably never returns an empty list, so the
fallback is always defined. -/
theorem claim_c6 (status : Nat) (body : String) (group : List Recipient) :
    parsePragatiResponse body ≠ [] ∧
    (sendOneBatch (.http true status body) group).length = group.length ∧
    (∀ k r, group.get? k = some r →
      ∀ p, (parsePragatiResponse body).get? k = some p →
        (sendOneBatch (.http true status body) group).get? k = some (specOutcome r p)) ∧
    (∀ k r, group.get? k = some r → (parsePragatiResponse body).length ≤ k →
      ∀ p0, (parsePragatiResponse body).get? 0 = some p0 →
        (sendOneBatch (.http true status body) group).get? k = some (specOutcome r p0) ∧
        (specOutcome r p0).success = p0.success) := by
  have hsend : sendOneBatch (.http true status body) group =
      reconcileAux (parsePragatiResponse body) 0 group := rfl
  have hrec : ∀ k, reconcileOne (parsePragatiResponse body) k =
      fun r => specOutcome r (((parsePragatiResponse body).get? k).getD
        ((parsePragatiResponse body).headD emptyParsedResult)) := by
    intro k; rfl
  refine ⟨parsePragatiResponse_ne_nil body, ?_, ?_, ?_⟩
  · rw [hsend]; exact reconcileAux_length _ _ 0
  · intro k r hr p hp
    rw [hsend, reconcileAux_get? _ _ 0 k, hr]
    simp only [Option.map_some, Nat.zero_add, hrec k, hp, Option.getD_some]
    rfl
  · intro k r hr hlen p0 hp0
    have hnone : (parsePragatiResponse body).get? k = none := List.get?_eq_none.mpr hlen
    have hhead : (parsePragatiResponse body).headD emptyParsedResult = p0 := by
      cases hps : parsePragatiResponse body with
      | nil => exact absurd hps (parsePragatiResponse_ne_nil body)
      | cons a t =>
        rw [hps] at hp0
        cases hp0
        rfl
    constructor
    · rw [hsend, reconcileAux_get? _ _ 0 k, hr]
      simp only [Option.map_some, Nat.zero_add, hrec k, hnone, Option.getD_none, hhead]
      rfl
    · cases hps : p0.success <;> simp [specOutcome, hps]

/-- C6 witness: a batch of three members whose response carries only two
codes — member 2 (beyond the parsed results) receives a copy of the first
result, including its success flag. -/
theorem claim_c6_witness :
    (parsePragatiResponse "guid=G&errorcode=0,7").length = 2 ∧
    (sendOneBatch (.http true 200 "guid=G&errorcode=0,7")
        [{ phone := "9000000001", message := some "m", templateVars := [] },
         { phone := "9000000002", message := some "m", templateVars := [] },
         { phone := "9000000003", message := some "m", templateVars := [] }]).get? 2 =
      some (specOutcome { phone := "9000000003", message := some "m", templateVars := [] }
        { success := true, guid := some "G", errorCode := "0",
          errorMessage := none, seqno := none }) :=
  ⟨by decide,
   ((claim_c6 200 "guid=G&errorcode=0,7"
      [{ phone := "9000000001", message := some "m", templateVars := [] },
       { phone := "9000000002", message := some "m", templateVars := [] },
       { phone := "9000000003", message := some "m", templateVars := [] }]).2.2.2
     2 { phone := "9000000003", message := some "m", templateVars := [] } rfl (by decide)
     { success := true, guid := some "G", errorCode := "0",
       errorMessage := none, seqno := none } (by decide)).1⟩

/-! ### C4 — batch-level failure recording and isolation -/

theorem runBatchesAux_append (oracle : Nat → BatchOutcome) :
    ∀ (bs1 : List (String × List Recipient)) (b : String × List Recipient)
      (bs2 : List (String × List Recipient)) (i : Nat),
      (runBatchesAux oracle i (bs1 ++ b :: bs2)).1 =
        (runBatchesAux oracle i bs1).1 ++
          sendOneBatch (oracle (i + bs1.length)) b.2 ++
          (runBatchesAux oracle (i + bs1.length + 1) bs2).1 := by
  intro bs1
  induction bs1 with
  | nil =>
    intro b bs2 i
    simp [runBatchesAux]
  | cons a rest ih =>
    intro b bs2 i
    have hstep : (runBatchesAux oracle i ((a :: rest) ++ b :: bs2)).1 =
        sendOneBatch (oracle i) a.2 ++ (runBatchesAux oracle (i + 1) (rest ++ b :: bs2)).1 := rfl
    have hstep2 : (runBatchesAux oracle i (a :: rest)).1 =
        sendOneBatch (oracle i) a.2 ++ (runBatchesAux oracle (i + 1) rest).1 := rfl
    have h1 : i + 1 + rest.length = i + (rest.length + 1) := by omega
    have h2 : i + 1 + rest.length + 1 = i + (rest.length + 1) + 1 := by omega
    rw [hstep, hstep2, ih b bs2 (i + 1), h1, List.length_cons]
    simp [List.append_assoc]

theorem runBatchesAux_congr :
    ∀ (bs : List (String × List Recipient)) (o1 o2 : Nat → BatchOutcome) (i : Nat),
      (∀ j, j < bs.length → o1 (i + j) = o2 (i + j)) →
      runBatchesAux o1 i bs = runBatchesAux o2 i bs := by
  intro bs
  induction bs with
  | nil => intro o1 o2 i _; rfl
  | cons b rest ih =>
    intro o1 o2 i hagree
    have h0 : o1 i = o2 i := by
      have := hagree 0 (by simp)
      simpa using this
    have hrest : runBatchesAux o1 (i + 1) rest = runBatchesAux o2 (i + 1) rest := by
      refine ih o1 o2 (i + 1) fun j hj => ?_
      have := hagree (j + 1) (by simpa using Nat.succ_lt_succ hj)
      have harith : i + (j + 1) = i + 1 + j := by omega
      rw [harith] at this
      exact this
    simp only [runBatchesAux, h0, hrest]

/-- C4: a failed batch is recorded in place and never aborts the run.
An exception while sending a batch (or a non-success HTTP status) records
every member of that batch as failed — with the exception's message,
respectively `HTTP <status>: <raw body>`, as error text — preserving the
members' phones in order; the aggregated result list decomposes into the
per-batch outcome blocks in batch order, so every other batch's outcomes
are present and equal to what they are under any gateway behaviour that
agrees outside the failing batch. -/
theorem claim_c4 :
    (∀ msg (group : List Recipient),
      (sendOneBatch (.exn msg) group).length = group.length ∧
      (sendOneBatch (.exn msg) group).map (·.phone) = group.map (·.phone) ∧
      ∀ o ∈ sendOneBatch (.exn msg) group, o.success = false ∧ o.error = some (.str msg)) ∧
    (∀ (status : Nat) (rawBody : String) (group : List Recipient),
      (sendOneBatch (.http false status rawBody) group).length = group.length ∧
      (sendOneBatch (.http false status rawBody) group).map (·.phone) = group.map (·.phone) ∧
      ∀ o ∈ sendOneBatch (.http false status rawBody) group,
        o.success = false ∧ o.error = some (.str ("HTTP " ++ toString status ++ ": " ++ rawBody))) ∧
    (∀ (oracle : Nat → BatchOutcome) (bs1 : List (String × List Recipient))
        (b : String × List Recipient) (bs2 : List (String × List Recipient)),
      (runBatches oracle (bs1 ++ b :: bs2)).1 =
        (runBatchesAux oracle 0 bs1).1 ++
          sendOneBatch (oracle bs1.length) b.2 ++
          (runBatchesAux oracle (bs1.length + 1) bs2).1) ∧
    (∀ (o1 o2 : Nat → BatchOutcome) (bs1 : List (String × List Recipient))
        (b1 : String × List Recipient) (bs2 : List (String × List Recipient)),
      (∀ j, j ≠ bs1.length → o1 j = o2 j) →
      (runBatchesAux o1 0 bs1).1 = (runBatchesAux o2 0 bs1).1 ∧
      (runBatchesAux o1 (bs1.length + 1) bs2).1 = (runBatchesAux o2 (bs1.length + 1) bs2).1 ∧
      (runBatches o1 (bs1 ++ b1 :: bs2)).1 =
        (runBatchesAux o2 0 bs1).1 ++
          sendOneBatch (o1 bs1.length) b1.2 ++
          (runBatchesAux o2 (bs1.length + 1) bs2).1) := by
  refine ⟨?_, ?_, ?_, ?_⟩
  · intro msg group
    refine ⟨by simp [sendOneBatch], by simp [sendOneBatch], ?_⟩
    intro o ho
    simp only [sendOneBatch, List.mem_map] at ho
    obtain ⟨r, _, hr⟩ := ho
    rw [← hr]
    exact ⟨rfl, rfl⟩
  · intro status rawBody group
    refine ⟨by simp [sendOneBatch], by simp [sendOneBatch], ?_⟩
    intro o ho
    simp only [sendOneBatch, Bool.not_false, if_pos] at ho
    rw [List.mem_map] at ho
    obtain ⟨r, _, hr⟩ := ho
    rw [← hr]
    exact ⟨rfl, rfl⟩
  · intro oracle bs1 b bs2
    have := runBatchesAux_append oracle bs1 b bs2 0
    simpa [runBatches] using this
  · intro o1 o2 bs1 b1 bs2 hagree
    have hfirst : (runBatchesAux o1 0 bs1).1 = (runBatchesAux o2 0 bs1).1 := by
      rw [runBatchesAux_congr bs1 o1 o2 0 fun j hj => hagree (0 + j) (by omega)]
    have hsecond : (runBatchesAux o1 (bs1.length + 1) bs2).1 =
        (runBatchesAux o2 (bs1.length + 1) bs2).1 := by
      rw [runBatchesAux_congr bs2 o1 o2 (bs1.length + 1)
        fun j hj => hagree (bs1.length + 1 + j) (by omega)]
    refine ⟨hfirst, hsecond, ?_⟩
    have hdec := runBatchesAux_append o1 bs1 b1 bs2 0
    simp only [runBatches, hdec, Nat.zero_add, hfirst, hsecond]

/-- C4 witness: three one-member batches where the middle batch's gateway
call throws — the middle batch's member is recorded as failed with the
exception message, and the first and last batches' outcome blocks equal
those of a fully successful gateway. -/
theorem claim_c4_witness :
    ((fun j => if j = 1 then BatchOutcome.exn "socket hang up"
               else BatchOutcome.http true 200 "guid=G&errorcode=0") 1 = .exn "socket hang up") ∧
    (runBatchesAux (fun j => if j = 1 then BatchOutcome.exn "socket hang up"
        else BatchOutcome.http true 200 "guid=G&errorcode=0") 0
      [("m", [{ phone := "9000000001", message := some "m", templateVars := [] }])]).1 =
      (runBatchesAux (fun _ => BatchOutcome.http true 200 "guid=G&errorcode=0") 0
        [("m", [{ phone := "9000000001", message := some "m", templateVars := [] }])]).1 :=
  ⟨rfl,
   ((claim_c4.2.2.2
      (fun j => if j = 1 then BatchOutcome.exn "socket hang up"
                else BatchOutcome.http true 200 "guid=G&errorcode=0")
      (fun _ => BatchOutcome.http true 200 "guid=G&errorcode=0")
      [("m", [{ phone := "9000000001", message := some "m", templateVars := [] }])]
      ("m2", [{ phone := "9000000002", message := some "m2", templateVars := [] }])
      [("m3", [{ phone := "9000000003", message := some "m3", templateVars := [] }])]
      (fun j hj => by
        simp only [List.length_cons, List.length_nil] at hj ⊢
        have : j ≠ 1 := hj
        simp [this])).1)⟩

/-! ### C7 — grouping, ordering and splitting -/

/-- The property keys of a grouped-by-message object, in entry order. -/
def entryKeys (gs : List (String × List Recipient)) : List String :=
  gs.map Prod.fst

/-- All recipients stored under key `t`, in entry order. -/
def contentsFor (t : String) (gs : List (String × List Recipient)) : List Recipient :=
  ((gs.filter (fun e => e.1 = t)).map Prod.snd).flatten

/-- Spec-side ordering: the distinct texts in order of first occurrence
(the claim's "insertion order of first occurrence"). -/
def specFirstOccurrenceTexts (texts : List String) : List String :=
  texts.foldl (fun ks t => if t ∈ ks then ks else ks ++ [t]) []

theorem filter_eq_nil_of_not_key (t : String) (gs : List (String × List Recipient))
    (h : t ∉ entryKeys gs) : gs.filter (fun e => e.1 = t) = [] := by
  refine List.filter_eq_nil_iff.mpr fun e he => ?_
  simp only [decide_eq_true_eq]
  intro het
  exact h (het ▸ List.mem_map_of_mem Prod.fst he)

theorem insertGroup_keys (k : String) (r : Recipient) :
    ∀ gs : List (String × List Recipient),
      entryKeys (insertGroup k r gs) =
        if k ∈ entryKeys gs then entryKeys gs else entryKeys gs ++ [k] := by
  intro gs
  induction gs with
  | nil => simp [insertGroup, entryKeys]
  | cons e rest ih =>
    by_cases hk : e.1 = k
    · simp [insertGroup, hk, entryKeys, List.mem_cons]
    · have hne : k ≠ e.1 := fun h => hk h.symm
      simp only [insertGroup, hk, if_neg, entryKeys, List.map_cons, List.mem_cons]
      by_cases hmem : k ∈ entryKeys rest
      · simp only [entryKeys] at hmem ih
        simp [hmem, hne, ih]
      · simp only [entryKeys] at hmem ih
        simp [hmem, hne, ih]

theorem insertGroup_keys_nodup (k : String) (r : Recipient)
    (gs : List (String × List Recipient)) (hnd : (entryKeys gs).Nodup) :
    (entryKeys (insertGroup k r gs)).Nodup := by
  rw [insertGroup_keys]
  by_cases hmem : k ∈ entryKeys gs
  · simpa [hmem] using hnd
  · simp only [hmem, if_neg, not_false_iff]
    rw [List.nodup_append]
    exact ⟨hnd, List.nodup_singleton k, by simpa using hmem⟩

theorem insertGroup_contents (t k : String) (r : Recipient) :
    ∀ gs : List (String × List Recipient), (entryKeys gs).Nodup →
      contentsFor t (insertGroup k r gs) =
        contentsFor t gs ++ (if k = t then [r] else []) := by
  intro gs
  induction gs with
  | nil =>
    intro _
    by_cases ht : k = t
    · simp [insertGroup, contentsFor, ht]
    · have : ¬ (decide (k = t) = true) := by simp [ht]
      simp [insertGroup, contentsFor, List.filter_cons, ht, this]
  | cons e rest ih =>
    obtain ⟨k0, g0⟩ := e
    intro hnd
    have hcons : entryKeys ((k0, g0) :: rest) = k0 :: entryKeys rest := rfl
    rw [hcons] at hnd
    have hkey : k0 ∉ entryKeys rest := (List.nodup_cons.mp hnd).1
    have hnd2 : (entryKeys rest).Nodup := (List.nodup_cons.mp hnd).2
    by_cases hk : k0 = k
    · by_cases ht : k0 = t
      · have hkt : k = t := by rw [← hk]; exact ht
        have hrest : rest.filter (fun x => x.1 = t) = [] :=
          filter_eq_nil_of_not_key t rest (by rw [ht] at hkey; exact hkey)
        simp [insertGroup, contentsFor, List.filter_cons, hk, ht, hkt, hrest]
      · have hkt : ¬ k = t := by rw [← hk]; exact ht
        simp [insertGroup, contentsFor, List.filter_cons, hk, ht, hkt]
    · have ihc := ih hnd2
      simp only [contentsFor] at ihc
      have hins : insertGroup k r ((k0, g0) :: rest) = (k0, g0) :: insertGroup k r rest := by
        simp [insertGroup, hk]
      rw [contentsFor, hins]
      by_cases ht : k0 = t
      · have hkt : ¬ k = t := fun h => hk (by rw [ht, h])
        simp [List.filter_cons, ht, hkt, ihc, List.append_assoc, contentsFor]
      · simp [List.filter_cons, ht, ihc, contentsFor]

theorem groupByMessage_foldl (template : Option String) :
    ∀ (rs : List Recipient) (gs : List (String × List Recipient)),
      (entryKeys gs).Nodup →
      (entryKeys (rs.foldl (fun acc r => insertGroup (resolveMessage template r) r acc) gs)).Nodup ∧
      ∀ t, contentsFor t (rs.foldl (fun acc r => insertGroup (resolveMessage template r) r acc) gs) =
        contentsFor t gs ++ rs.filter (fun r => resolveMessage template r = t) := by
  intro rs
  induction rs with
  | nil => intro gs hnd; exact ⟨hnd, fun t => by simp⟩
  | cons r rest ih =>
    intro gs hnd
    have hnd' := insertGroup_keys_nodup (resolveMessage template r) r gs hnd
    obtain ⟨ihnd, ihcontents⟩ := ih (insertGroup (resolveMessage template r) r gs) hnd'
    refine ⟨by simpa using ihnd, fun t => ?_⟩
    have h1 := ihcontents t
    have h2 := insertGroup_contents t (resolveMessage template r) r gs hnd
    simp only [List.foldl_cons] at h1 ⊢
    rw [h1, h2, List.append_assoc]
    congr 1
    by_cases hrt : resolveMessage template r = t
    · simp [List.filter_cons, hrt]
    · simp [List.filter_cons, hrt]

theorem groupedOwn_keys_nodup (template : Option String) (rs : List Recipient) :
    (entryKeys (groupedOwn template rs)).Nodup :=
  (groupByMessage_foldl template rs [] (by simp [entryKeys])).1

theorem groupedOwn_contents (template : Option String) (rs : List Recipient) (t : String) :
    contentsFor t (groupedOwn template rs) =
      rs.filter (fun r => resolveMessage template r = t) := by
  have := (groupByMessage_foldl template rs [] (by simp [entryKeys])).2 t
  simpa [groupedOwn, contentsFor] using this

theorem groupByMessage_keys (template : Option String) :
    ∀ (rs : List Recipient) (gs : List (String × List Recipient)),
      entryKeys (rs.foldl (fun acc r => insertGroup (resolveMessage template r) r acc) gs) =
        (rs.map (resolveMessage template)).foldl
          (fun ks t => if t ∈ ks then ks else ks ++ [t]) (entryKeys gs) := by
  intro rs
  induction rs with
  | nil => intro gs; rfl
  | cons r rest ih =>
    intro gs
    simp only [List.foldl_cons, List.map_cons]
    rw [ih (insertGroup (resolveMessage template r) r gs), insertGroup_keys]

theorem groupedOwn_key_order (template : Option String) (rs : List Recipient) :
    entryKeys (groupedOwn template rs) =
      specFirstOccurrenceTexts (rs.map (resolveMessage template)) := by
  have := groupByMessage_keys template rs []
  simpa [groupedOwn, specFirstOccurrenceTexts, entryKeys] using this

theorem specFirstOccurrence_mem :
    ∀ (texts acc : List String) (x : String),
      x ∈ texts.foldl (fun ks t => if t ∈ ks then ks else ks ++ [t]) acc →
      x ∈ acc ∨ x ∈ texts := by
  intro texts
  induction texts with
  | nil => intro acc x h; exact Or.inl h
  | cons t ts ih =>
    intro acc x h
    simp only [List.foldl_cons] at h
    rcases ih (if t ∈ acc then acc else acc ++ [t]) x h with h1 | h1
    · by_cases hmem : t ∈ acc
      · rw [if_pos hmem] at h1; exact Or.inl h1
      · rw [if_neg hmem] at h1
        rcases List.mem_append.mp h1 with h2 | h2
        · exact Or.inl h2
        · simp at h2
          exact Or.inr (by simp [h2])
    · exact Or.inr (List.mem_cons_of_mem t h1)

theorem insertByKeyVal_perm (x : String × List Recipient) :
    ∀ l : List (String × List Recipient), (insertByKeyVal x l).Perm (x :: l) := by
  intro l
  induction l with
  | nil => simp [insertByKeyVal]
  | cons y ys ih =>
    simp only [insertByKeyVal]
    split
    · exact List.Perm.refl _
    · exact (ih.cons y).trans (List.Perm.swap x y ys)

theorem sortByKeyVal_perm :
    ∀ l : List (String × List Recipient), (sortByKeyVal l).Perm l := by
  intro l
  induction l with
  | nil => simp [sortByKeyVal]
  | cons x xs ih =>
    have : sortByKeyVal (x :: xs) = insertByKeyVal x (sortByKeyVal xs) := rfl
    rw [this]
    exact (insertByKeyVal_perm x (sortByKeyVal xs)).trans (ih.cons x)

theorem nodup_keys_filter (q : String × List Recipient → Bool)
    (gs : List (String × List Recipient)) (hnd : (entryKeys gs).Nodup) :
    (entryKeys (gs.filter q)).Nodup := by
  have hsub : List.Sublist (entryKeys (gs.filter q)) (entryKeys gs) :=
    (List.filter_sublist gs).map Prod.fst
  exact hsub.nodup hnd

theorem filter_key_length_le_one (t : String) :
    ∀ gs : List (String × List Recipient), (entryKeys gs).Nodup →
      (gs.filter (fun e => e.1 = t)).length ≤ 1 := by
  intro gs
  induction gs with
  | nil => intro _; simp
  | cons e rest ih =>
    intro hnd
    have hcons : entryKeys (e :: rest) = e.1 :: entryKeys rest := rfl
    rw [hcons] at hnd
    have hkey : e.1 ∉ entryKeys rest := (List.nodup_cons.mp hnd).1
    have hnd2 : (entryKeys rest).Nodup := (List.nodup_cons.mp hnd).2
    by_cases ht : e.1 = t
    · have hrest : rest.filter (fun x => x.1 = t) = [] :=
        filter_eq_nil_of_not_key t rest (by rw [ht] at hkey; exact hkey)
      simp [List.filter_cons, ht, hrest]
    · simpa [List.filter_cons, ht] using ih hnd2

theorem perm_eq_of_length_le_one {l1 l2 : List (String × List Recipient)}
    (h : l1.Perm l2) (hlen : l2.length ≤ 1) : l1 = l2 := by
  cases l2 with
  | nil => exact h.eq_nil
  | cons a t =>
    cases t with
    | nil => exact List.perm_singleton.mp h
    | cons b u => simp at hlen

theorem objectEntries_filter (t : String) (gs : List (String × List Recipient))
    (hnd : (entryKeys gs).Nodup) :
    (objectEntries gs).filter (fun e => e.1 = t) = gs.filter (fun e => e.1 = t) := by
  have hsplit : (objectEntries gs).filter (fun e => e.1 = t) =
      (sortByKeyVal (gs.filter (fun e => isArrayIndexKey e.1))).filter (fun e => e.1 = t) ++
        (gs.filter (fun e => !isArrayIndexKey e.1)).filter (fun e => e.1 = t) := by
    simp [objectEntries, List.filter_append]
  have hperm : ((sortByKeyVal (gs.filter (fun e => isArrayIndexKey e.1))).filter
      (fun e => e.1 = t)).Perm
        ((gs.filter (fun e => isArrayIndexKey e.1)).filter (fun e => e.1 = t)) :=
    (sortByKeyVal_perm _).filter _
  have hlen1 : ((gs.filter (fun e => isArrayIndexKey e.1)).filter (fun e => e.1 = t)).length ≤ 1 :=
    filter_key_length_le_one t _ (nodup_keys_filter _ gs hnd)
  have hsorted := perm_eq_of_length_le_one hperm hlen1
  rw [hsplit, hsorted, List.filter_filter, List.filter_filter]
  by_cases hT : isArrayIndexKey t
  · have h1 : gs.filter (fun a => decide (a.1 = t) && isArrayIndexKey a.1) =
        gs.filter (fun e => e.1 = t) := by
      refine List.filter_congr fun e _ => ?_
      by_cases he : e.1 = t
      · simp [he, hT]
      · simp [he]
    have h2 : gs.filter (fun a => decide (a.1 = t) && !isArrayIndexKey a.1) = [] := by
      refine List.filter_eq_nil_iff.mpr fun e _ => ?_
      by_cases he : e.1 = t
      · simp [he, hT]
      · simp [he]
    rw [h1, h2, List.append_nil]
  · have h1 : gs.filter (fun a => decide (a.1 = t) && isArrayIndexKey a.1) = [] := by
      refine List.filter_eq_nil_iff.mpr fun e _ => ?_
      by_cases he : e.1 = t
      · simp [he, hT]
      · simp [he]
    have h2 : gs.filter (fun a => decide (a.1 = t) && !isArrayIndexKey a.1) =
        gs.filter (fun e => e.1 = t) := by
      refine List.filter_congr fun e _ => ?_
      by_cases he : e.1 = t
      · simp [he, hT]
      · simp [he]
    rw [h1, h2, List.nil_append]

theorem objectEntries_contents (t : String) (gs : List (String × List Recipient))
    (hnd : (entryKeys gs).Nodup) :
    contentsFor t (objectEntries gs) = contentsFor t gs := by
  simp only [contentsFor]
  rw [objectEntries_filter t gs hnd]

theorem chunksOfAux_nil (n fuel : Nat) : chunksOfAux n fuel [] = [] := by
  cases fuel <;> rfl

theorem chunksOfAux_eq_nil_iff (n : Nat) (hn : n ≠ 0) :
    ∀ (fuel : Nat) (l : List Recipient), l.length ≤ fuel →
      (chunksOfAux n fuel l = [] ↔ l = []) := by
  intro fuel
  induction fuel with
  | zero =>
    intro l hl
    have hnil : l = [] := List.length_eq_zero.mp (Nat.le_zero.mp hl)
    subst hnil
    simp [chunksOfAux_nil]
  | succ m _ =>
    intro l hl
    cases l with
    | nil => simp [chunksOfAux_nil]
    | cons c rest => simp [chunksOfAux, hn]

theorem chunksOfAux_flatten (n : Nat) (hn : n ≠ 0) :
    ∀ (fuel : Nat) (l : List Recipient), l.length ≤ fuel →
      (chunksOfAux n fuel l).flatten = l := by
  intro fuel
  induction fuel with
  | zero =>
    intro l hl
    have hnil : l = [] := List.length_eq_zero.mp (Nat.le_zero.mp hl)
    subst hnil
    simp [chunksOfAux_nil]
  | succ m ih =>
    intro l hl
    cases l with
    | nil => simp [chunksOfAux_nil]
    | cons c rest =>
      have hdrop : ((c :: rest).drop n).length ≤ m := by
        simp only [List.length_drop, List.length_cons]
        simp only [List.length_cons] at hl
        omega
      simp only [chunksOfAux, if_neg hn, List.flatten_cons, ih _ hdrop]
      exact List.take_append_drop n (c :: rest)

theorem chunksOfAux_mem_length (n : Nat) :
    ∀ (fuel : Nat) (l : List Recipient) (c : List Recipient),
      c ∈ chunksOfAux n fuel l → c.length ≤ n := by
  intro fuel
  induction fuel with
  | zero =>
    intro l c hc
    cases l <;> simp [chunksOfAux_nil, chunksOfAux] at hc
  | succ m ih =>
    intro l c hc
    cases l with
    | nil => simp [chunksOfAux_nil] at hc
    | cons a rest =>
      by_cases hn : n = 0
      · simp [chunksOfAux, hn] at hc
      · simp only [chunksOfAux, if_neg hn] at hc
        rcases List.mem_cons.mp hc with hc | hc
        · subst hc
          simpa using Nat.min_le_left n (a :: rest).length
        · exact ih _ c hc

theorem chunksOfAux_sizes (n : Nat) (hn : n ≠ 0) :
    ∀ (fuel : Nat) (l : List Recipient), l.length ≤ fuel →
      ∀ x ∈ ((chunksOfAux n fuel l).map List.length).dropLast, x = n := by
  intro fuel
  induction fuel with
  | zero =>
    intro l hl x hx
    have hnil : l = [] := List.length_eq_zero.mp (Nat.le_zero.mp hl)
    subst hnil
    simp [chunksOfAux_nil] at hx
  | succ m ih =>
    intro l hl x hx
    cases l with
    | nil => simp [chunksOfAux_nil] at hx
    | cons a rest =>
      have hdrop : ((a :: rest).drop n).length ≤ m := by
        simp only [List.length_drop, List.length_cons]
        simp only [List.length_cons] at hl
        omega
      simp only [chunksOfAux, if_neg hn] at hx
      by_cases hrest : chunksOfAux n m ((a :: rest).drop n) = []
      · rw [hrest] at hx
        simp at hx
      · have hmapne : (chunksOfAux n m ((a :: rest).drop n)).map List.length ≠ [] := by
          simpa using hrest
        rw [List.map_cons, List.dropLast_cons_of_ne_nil hmapne] at hx
        rcases List.mem_cons.mp hx with hx | hx
        · have hdropne : (a :: rest).drop n ≠ [] :=
            fun hd => hrest (by rw [hd]; exact chunksOfAux_nil n m)
          have hlong : n < (a :: rest).length := by
            by_contra hcon
            exact hdropne (List.drop_eq_nil_of_le (by omega))
          subst hx
          simp only [List.length_take]
          omega
        · exact ih _ hdrop x hx

theorem chunksOf_flatten (n : Nat) (hn : 0 < n) (l : List Recipient) :
    (chunksOf n l).flatten = l :=
  chunksOfAux_flatten n (by omega) l.length l le_rfl

theorem chunksOf_mem_length (n : Nat) (c : List Recipient) (l : List Recipient)
    (hmem : c ∈ chunksOf n l) : c.length ≤ n :=
  chunksOfAux_mem_length n l.length l c hmem

theorem chunksOf_sizes (n : Nat) (hn : n ≠ 0) (l : List Recipient) :
    ∀ x ∈ ((chunksOf n l).map List.length).dropLast, x = n :=
  chunksOfAux_sizes n hn l.length l le_rfl

theorem splitEntry_key (e : String × List Recipient) :
    ∀ b ∈ splitEntry e, b.1 = e.1 := by
  intro b hb
  rw [splitEntry] at hb
  split at hb
  · simp at hb
    rw [hb]
  · rw [List.mem_map] at hb
    obtain ⟨c, _, hc⟩ := hb
    rw [← hc]

theorem splitEntry_contents (e : String × List Recipient) :
    ((splitEntry e).map Prod.snd).flatten = e.2 := by
  rw [splitEntry]
  split
  · simp
  · rename_i h
    rw [List.map_map]
    have hid : ((chunksOf 100 e.2).map (Prod.snd ∘ fun c => (e.1, c))) = chunksOf 100 e.2 := by
      simp
    rw [hid]
    exact chunksOf_flatten 100 (by omega) e.2

theorem splitEntry_lengths (e : String × List Recipient) :
    ∀ b ∈ splitEntry e, b.2.length ≤ 100 := by
  intro b hb
  rw [splitEntry] at hb
  split at hb
  · rename_i h
    simp at hb
    rw [hb]
    exact h
  · rw [List.mem_map] at hb
    obtain ⟨c, hc, hbc⟩ := hb
    rw [← hbc]
    exact chunksOf_mem_length 100 c e.2 hc

theorem foldrSplit_filter (t : String) :
    ∀ es : List (String × List Recipient),
      (es.foldr (fun e acc => splitEntry e ++ acc) []).filter (fun b => b.1 = t) =
        (es.filter (fun e => e.1 = t)).foldr (fun e acc => splitEntry e ++ acc) [] := by
  intro es
  induction es with
  | nil => simp
  | cons e rest ih =>
    simp only [List.foldr_cons, List.filter_append, ih, List.filter_cons]
    by_cases ht : e.1 = t
    · have hself : (splitEntry e).filter (fun b => b.1 = t) = splitEntry e := by
        refine List.filter_eq_self.mpr fun b hb => ?_
        simp [splitEntry_key e b hb, ht]
      simp [ht, hself]
    · have hnil : (splitEntry e).filter (fun b => b.1 = t) = [] := by
        refine List.filter_eq_nil_iff.mpr fun b hb => ?_
        simp [splitEntry_key e b hb, ht]
      simp [ht, hnil]

theorem foldrSplit_mem (b : String × List Recipient) :
    ∀ es : List (String × List Recipient),
      b ∈ es.foldr (fun e acc => splitEntry e ++ acc) [] →
      ∃ e ∈ es, b ∈ splitEntry e := by
  intro es
  induction es with
  | nil => intro h; simp at h
  | cons e rest ih =>
    intro h
    simp only [List.foldr_cons, List.mem_append] at h
    rcases h with h | h
    · exact ⟨e, List.mem_cons_self e rest, h⟩
    · obtain ⟨e2, he2, hbe2⟩ := ih h
      exact ⟨e2, List.mem_cons_of_mem e he2, hbe2⟩

theorem groupLoop_ok (template : Option String) :
    ∀ (rs : List Recipient) (gs gb : List (String × List Recipient)),
      groupLoop template gs rs = .ok gb →
      gb = rs.foldl (fun acc r => insertGroup (resolveMessage template r) r acc) gs := by
  intro rs
  induction rs with
  | nil => intro gs gb h; cases h; rfl
  | cons r rest ih =>
    intro gs gb h
    simp only [groupLoop] at h
    split at h
    · cases h
    · rw [List.foldl_cons]
      exact ih _ gb h

theorem groupLoop_ok_of_no_proto (template : Option String) :
    ∀ (rs : List Recipient) (gs : List (String × List Recipient)),
      (∀ r ∈ rs, isObjectPrototypeKey (resolveMessage template r) = false) →
      groupLoop template gs rs =
        .ok (rs.foldl (fun acc r => insertGroup (resolveMessage template r) r acc) gs) := by
  intro rs
  induction rs with
  | nil => intro gs _; rfl
  | cons r rest ih =>
    intro gs hno
    have hhead : isObjectPrototypeKey (resolveMessage template r) = false :=
      hno r (List.mem_cons_self r rest)
    simp only [groupLoop, hhead, Bool.and_false, Bool.false_eq_true, if_false,
      List.foldl_cons]
    exact ih _ fun r2 hr2 => hno r2 (List.mem_cons_of_mem r hr2)

theorem groupLoop_error_of_proto (template : Option String) :
    ∀ (rs : List Recipient) (gs : List (String × List Recipient)),
      (∀ k ∈ entryKeys gs, isObjectPrototypeKey k = false) →
      (∃ r ∈ rs, isObjectPrototypeKey (resolveMessage template r) = true) →
      ∃ e, groupLoop template gs rs = .error e := by
  intro rs
  induction rs with
  | nil =>
    rintro gs _ ⟨r, hr, _⟩
    simp at hr
  | cons r rest ih =>
    intro gs hkeys hex
    cases hp : isObjectPrototypeKey (resolveMessage template r) with
    | true =>
      have hown : hasOwnKey gs (resolveMessage template r) = false := by
        cases ho : hasOwnKey gs (resolveMessage template r) with
        | false => rfl
        | true =>
          rw [hasOwnKey, List.any_eq_true] at ho
          obtain ⟨e, he, hek⟩ := ho
          simp only [decide_eq_true_eq] at hek
          have : isObjectPrototypeKey e.1 = false :=
            hkeys e.1 (List.mem_map_of_mem Prod.fst he)
          rw [hek, hp] at this
          cases this
      refine ⟨"groupedByMessage[messageText].push is not a function", ?_⟩
      simp only [groupLoop, hown, hp, Bool.not_false, Bool.true_and, if_true]
    | false =>
      obtain ⟨r2, hr2, hp2⟩ := hex
      rcases List.mem_cons.mp hr2 with h | h
      · subst h
        rw [hp] at hp2
        cases hp2
      · have hkeys2 : ∀ k ∈ entryKeys (insertGroup (resolveMessage template r) r gs),
            isObjectPrototypeKey k = false := by
          intro k hk
          rw [insertGroup_keys] at hk
          split at hk
          · exact hkeys k hk
          · rcases List.mem_append.mp hk with h2 | h2
            · exact hkeys k h2
            · simp only [List.mem_singleton] at h2
              rw [h2]
              exact hp
        have hstep2 : groupLoop template gs (r :: rest) =
            groupLoop template (insertGroup (resolveMessage template r) r gs) rest := by
          simp only [groupLoop, hp, Bool.and_false, Bool.false_eq_true, if_false]
        rw [hstep2]
        exact ih _ hkeys2 ⟨r2, h, hp2⟩

/-- C7 counterexample: message texts are used as JavaScript object
property keys, and `Object.entries` enumerates array-index keys (such as
`"0"` and `"1"`) in ascending numeric order before insertion order
applies. With resolved texts `"1"` then `"0"`, grouping succeeds, but
insertion order of first occurrence is `["1", "0"]` while the dispatched
batch order is `["0", "1"]`, refuting the claim's ordering clause. -/
theorem claim_c7_counterexample :
    groupByMessage none
        [{ phone := "p1", message := some "1", templateVars := [] },
         { phone := "p2", message := some "0", templateVars := [] }] =
      .ok [("1", [{ phone := "p1", message := some "1", templateVars := [] }]),
           ("0", [{ phone := "p2", message := some "0", templateVars := [] }])] ∧
    (buildBatches
        [("1", [{ phone := "p1", message := some "1", templateVars := [] }]),
         ("0", [{ phone := "p2", message := some "0", templateVars := [] }])]).map Prod.fst =
      ["0", "1"] ∧
    specFirstOccurrenceTexts
        ([{ phone := "p1", message := some "1", templateVars := [] },
          { phone := "p2", message := some "0", templateVars := [] }].map (resolveMessage none)) =
      ["1", "0"] ∧
    (["0", "1"] : List String) ≠ ["1", "0"] := by
  refine ⟨rfl, by decide, by decide, by decide⟩

set_option maxRecDepth 10000 in
/-- C7 (amended): whenever the grouping loop completes — which it does
exactly when no resolved message text names an inherited
`Object.prototype` member (a text like `"toString"` makes
`!groupedByMessage[text]` falsely truthy, so `.push` on the inherited
member throws a TypeError and the request fails before any partitioning) —
the recipients are partitioned by exact resolved text with members in
original relative order; every batch has at most 100 members and, per
text, all batches except possibly the last hold exactly 100; the group
keys are the distinct resolved texts in insertion order of first
occurrence, and `Object.entries` preserves that order provided no
resolved text is an array-index string (array-index texts are otherwise
enumerated first, in ascending numeric order); 250 recipients sharing one
text group into a single entry whose batches have sizes 100, 100, 50 and
concatenate to the original recipient list. -/
theorem claim_c7_amended (template : Option String) (recipients : List Recipient) :
    (∀ gb, groupByMessage template recipients = .ok gb →
      (∀ t, (((buildBatches gb).filter (fun b => b.1 = t)).map Prod.snd).flatten =
          recipients.filter (fun r => resolveMessage template r = t)) ∧
      (∀ b ∈ buildBatches gb, b.2.length ≤ 100) ∧
      (∀ t, ∀ sz ∈ (((buildBatches gb).filter (fun b => b.1 = t)).map
          (fun b => b.2.length)).dropLast, sz = 100) ∧
      ((∀ r ∈ recipients, isArrayIndexKey (resolveMessage template r) = false) →
        objectEntries gb = gb) ∧
      entryKeys gb = specFirstOccurrenceTexts (recipients.map (resolveMessage template))) ∧
    ((∀ r ∈ recipients, isObjectPrototypeKey (resolveMessage template r) = false) →
      groupByMessage template recipients = .ok (groupedOwn template recipients)) ∧
    ((∃ r ∈ recipients, isObjectPrototypeKey (resolveMessage template r) = true) →
      ∃ e, groupByMessage template recipients = .error e) ∧
    groupByMessage none ((List.range 250).map
        (fun i => { phone := "9" ++ toString i, message := some "hello", templateVars := [] })) =
      .ok [("hello", (List.range 250).map
        (fun i => { phone := "9" ++ toString i, message := some "hello", templateVars := [] }))] ∧
    (buildBatches [("hello", (List.range 250).map
        (fun i => { phone := "9" ++ toString i, message := some "hello", templateVars := [] }))]).map
      (fun b => b.2.length) = [100, 100, 50] ∧
    ((buildBatches [("hello", (List.range 250).map
        (fun i => { phone := "9" ++ toString i, message := some "hello", templateVars := [] }))]).map
      Prod.snd).flatten = (List.range 250).map
        (fun i => { phone := "9" ++ toString i, message := some "hello", templateVars := [] }) := by
  refine ⟨?_, ?_, ?_, rfl, by decide, by decide⟩
  · intro gb hok
    have hgb : gb = groupedOwn template recipients :=
      groupLoop_ok template recipients [] gb hok
    subst hgb
    have hnd := groupedOwn_keys_nodup template recipients
    have hb : buildBatches (groupedOwn template recipients) =
        (objectEntries (groupedOwn template recipients)).foldr
          (fun e acc => splitEntry e ++ acc) [] := rfl
    have hEF : ∀ t, (objectEntries (groupedOwn template recipients)).filter
        (fun e => e.1 = t) = (groupedOwn template recipients).filter (fun e => e.1 = t) :=
      fun t => objectEntries_filter t _ hnd
    refine ⟨?_, ?_, ?_, ?_, groupedOwn_key_order template recipients⟩
    · intro t
      rw [hb, foldrSplit_filter, hEF t]
      have hc := groupedOwn_contents template recipients t
      simp only [contentsFor] at hc
      cases hE : (groupedOwn template recipients).filter (fun e => e.1 = t) with
      | nil =>
        rw [hE] at hc
        simpa using hc
      | cons e rest =>
        have hone := filter_key_length_le_one t (groupedOwn template recipients) hnd
        rw [hE] at hone hc
        have hrest : rest = [] := by
          cases rest with
          | nil => rfl
          | cons f fs => simp at hone
        subst hrest
        simp only [List.foldr_cons, List.foldr_nil, List.append_nil]
        rw [splitEntry_contents]
        simpa using hc
    · intro b hbmem
      rw [hb] at hbmem
      obtain ⟨e, _, hbe⟩ := foldrSplit_mem b _ hbmem
      exact splitEntry_lengths e b hbe
    · intro t sz hsz
      rw [hb, foldrSplit_filter, hEF t] at hsz
      cases hE : (groupedOwn template recipients).filter (fun e => e.1 = t) with
      | nil =>
        rw [hE] at hsz
        simp at hsz
      | cons e rest =>
        have hone := filter_key_length_le_one t (groupedOwn template recipients) hnd
        rw [hE] at hone hsz
        have hrest : rest = [] := by
          cases rest with
          | nil => rfl
          | cons f fs => simp at hone
        subst hrest
        simp only [List.foldr_cons, List.foldr_nil, List.append_nil] at hsz
        rw [splitEntry] at hsz
        split at hsz
        · simp at hsz
        · rw [List.map_map] at hsz
          have hcomp : ((fun b : String × List Recipient => b.2.length) ∘ fun c => (e.1, c)) =
              List.length := rfl
          rw [hcomp] at hsz
          exact chunksOf_sizes 100 (by omega) e.2 sz hsz
    · intro hNoIdx
      have hkeysub : ∀ e ∈ groupedOwn template recipients, isArrayIndexKey e.1 = false := by
        intro e he
        have hk : e.1 ∈ entryKeys (groupedOwn template recipients) :=
          List.mem_map_of_mem Prod.fst he
        rw [groupedOwn_key_order] at hk
        have hmem := specFirstOccurrence_mem (recipients.map (resolveMessage template)) [] e.1 hk
        rcases hmem with h | h
        · simp at h
        · obtain ⟨r, hr, hre⟩ := List.mem_map.mp h
          rw [← hre]
          exact hNoIdx r hr
      have h1 : (groupedOwn template recipients).filter (fun e => isArrayIndexKey e.1) = [] :=
        List.filter_eq_nil_iff.mpr fun e he => by simp [hkeysub e he]
      have h2 : (groupedOwn template recipients).filter (fun e => !isArrayIndexKey e.1) =
          groupedOwn template recipients :=
        List.filter_eq_self.mpr fun e he => by simp [hkeysub e he]
      rw [objectEntries, h1, h2]
      rfl
  · intro hno
    exact groupLoop_ok_of_no_proto template recipients [] hno
  · intro hex
    exact groupLoop_error_of_proto template recipients [] (by simp [entryKeys]) hex

/-- C7 witness: two distinct ordinary texts — grouping succeeds,
`Object.entries` preserves insertion order, and the group keys are the
first-occurrence order of the resolved texts. -/
theorem claim_c7_witness :
    objectEntries [("hello", [{ phone := "p1", message := some "hello", templateVars := [] }]),
        ("world", [{ phone := "p2", message := some "world", templateVars := [] }])] =
      [("hello", [{ phone := "p1", message := some "hello", templateVars := [] }]),
       ("world", [{ phone := "p2", message := some "world", templateVars := [] }])] ∧
    entryKeys [("hello", [{ phone := "p1", message := some "hello", templateVars := [] }]),
        ("world", [{ phone := "p2", message := some "world", templateVars := [] }])] =
      specFirstOccurrenceTexts
        ([{ phone := "p1", message := some "hello", templateVars := [] },
          { phone := "p2", message := some "world", templateVars := [] }].map
          (resolveMessage none)) :=
  ⟨((claim_c7_amended none
      [{ phone := "p1", message := some "hello", templateVars := [] },
       { phone := "p2", message := some "world", templateVars := [] }]).1
      [("hello", [{ phone := "p1", message := some "hello", templateVars := [] }]),
       ("world", [{ phone := "p2", message := some "world", templateVars := [] }])]
      rfl).2.2.2.1 (by decide),
   ((claim_c7_amended none
      [{ phone := "p1", message := some "hello", templateVars := [] },
       { phone := "p2", message := some "world", templateVars := [] }]).1
      [("hello", [{ phone := "p1", message := some "hello", templateVars := [] }]),
       ("world", [{ phone := "p2", message := some "world", templateVars := [] }])]
      rfl).2.2.2.2⟩

/-! ### C1 — single-flight refresh under concurrency -/

/-- Labels allowed in a run whose gateway always succeeds and always
issues token `T`: no failing responses, and every generate response
carries `T`. -/
def okLabel (T : String) : TLabel → Bool
  | .genOk t => t = T
  | .genFail _ => false
  | .actFail _ => false
  | _ => true

theorem settleWaiters_shape (r : RunResult) (cs : List CallerPc) :
    ∀ pc' ∈ settleWaiters r cs,
      (pc' ∈ cs ∧ pc' ≠ .waitOwner ∧ pc' ≠ .waitOther) ∨
        pc' = .resumeOwner r ∨ pc' = .resumeOther r := by
  intro pc' hmem
  rw [settleWaiters, List.mem_map] at hmem
  obtain ⟨pc, hpc, heq⟩ := hmem
  cases pc with
  | waitOwner => exact Or.inr (Or.inl heq.symm)
  | waitOther => exact Or.inr (Or.inr heq.symm)
  | start => exact Or.inl ⟨heq ▸ hpc, by rw [← heq]; simp, by rw [← heq]; simp⟩
  | resumeOwner r2 => exact Or.inl ⟨heq ▸ hpc, by rw [← heq]; simp, by rw [← heq]; simp⟩
  | resumeOther r2 => exact Or.inl ⟨heq ▸ hpc, by rw [← heq]; simp, by rw [← heq]; simp⟩
  | done r2 => exact Or.inl ⟨heq ▸ hpc, by rw [← heq]; simp, by rw [← heq]; simp⟩

theorem credValid_fresh (T : String) (hT : T ≠ "") (now : Nat) :
    credValid { token := some T, expiry := now + refreshMarginMs } now = true := by
  simp only [credValid, optStrTruthy, refreshMarginMs, Bool.and_eq_true, decide_eq_true_eq]
  exact ⟨by simpa using hT, by omega⟩

/-- Invariant for success-only runs started from an invalid credential:
the system is always in one of four phases — no refresh yet, generate in
flight, activate in flight, or refresh completed — and the generate and
activate calls are each issued exactly once, in the transition into the
second and third phase respectively; after completion every finished or
resuming caller carries the one token `T`. -/
def C1Inv (c0 : Credential) (now : Nat) (T : String) (n : Nat) (s : TokenState) : Prop :=
  s.now = now ∧ s.configOk = true ∧ s.callers.length = n ∧
  ((s.genCalls = 0 ∧ s.actCalls = 0 ∧ s.diskWrites = 0 ∧ s.cachedToken = c0 ∧
      s.refresher = none ∧ ∀ pc ∈ s.callers, pc = .start) ∨
   (s.genCalls = 1 ∧ s.actCalls = 0 ∧ s.diskWrites = 0 ∧ s.cachedToken = c0 ∧
      s.refresher = some .awaitGen ∧
      ∀ pc ∈ s.callers, pc = .start ∨ pc = .waitOwner ∨ pc = .waitOther) ∨
   (s.genCalls = 1 ∧ s.actCalls = 1 ∧ s.diskWrites = 0 ∧ s.cachedToken = c0 ∧
      s.refresher = some (.awaitAct T) ∧
      ∀ pc ∈ s.callers, pc = .start ∨ pc = .waitOwner ∨ pc = .waitOther) ∨
   (s.genCalls = 1 ∧ s.actCalls = 1 ∧ s.diskWrites = 1 ∧
      s.cachedToken = { token := some T, expiry := now + refreshMarginMs } ∧
      s.refresher = none ∧
      ∀ pc ∈ s.callers, pc = .start ∨ pc = .resumeOwner (.ok T) ∨
        pc = .resumeOther (.ok T) ∨ pc = .done (.ok T)))

theorem c1_step_preserve (c0 : Credential) (now : Nat) (T : String) (n : Nat)
    (hc : credValid c0 now = false) (hT : T ≠ "")
    (l : TLabel) (hl : okLabel T l = true) (s s' : TokenState)
    (hinv : C1Inv c0 now T n s) (hstep : step l s = some s') : C1Inv c0 now T n s' := by
  obtain ⟨hnow, hcfg, hlen, hphase⟩ := hinv
  cases l with
  | caller i =>
    have hsc : step (.caller i) s = stepCaller s i := rfl
    rw [hsc] at hstep
    unfold stepCaller at hstep
    cases hget : s.callers.get? i with
    | none => rw [hget] at hstep; cases hstep
    | some pc =>
      rw [hget] at hstep
      have hpcmem : pc ∈ s.callers := List.get?_mem hget
      rcases hphase with ⟨hg, ha, hd, hcache, href, hcallers⟩ |
        ⟨hg, ha, hd, hcache, href, hcallers⟩ |
        ⟨hg, ha, hd, hcache, href, hcallers⟩ |
        ⟨hg, ha, hd, hcache, href, hcallers⟩
      · -- phase 1: the caller starts the refresh
        have hpc : pc = .start := hcallers pc hpcmem
        subst hpc
        have hcv : credValid s.cachedToken s.now = false := by
          rw [hcache, hnow]; exact hc
        have hio : s.refresher.isSome = false := by rw [href]; rfl
        rw [hcv, hio, hcfg] at hstep
        simp only [Bool.false_eq_true, if_false, Bool.not_true, Option.some.injEq] at hstep
        subst hstep
        refine ⟨hnow, hcfg, by simpa using hlen, Or.inr (Or.inl ?_)⟩
        refine ⟨?_, ?_, ?_, ?_, rfl, ?_⟩
        · simpa [beginRefresh] using hg
        · simpa [beginRefresh] using ha
        · simpa [beginRefresh] using hd
        · simpa [beginRefresh] using hcache
        · intro pc' hpc'
          rcases List.mem_or_eq_of_mem_set hpc' with h | h
          · exact Or.inl (hcallers pc' h)
          · exact Or.inr (Or.inl h)
      · -- phase 2: generate in flight
        rcases hcallers pc hpcmem with hpc | hpc | hpc
        · subst hpc
          have hcv : credValid s.cachedToken s.now = false := by
            rw [hcache, hnow]; exact hc
          have hio : s.refresher.isSome = true := by rw [href]; rfl
          rw [hcv, hio] at hstep
          simp only [Bool.false_eq_true, if_false, if_true, Option.some.injEq] at hstep
          subst hstep
          refine ⟨hnow, hcfg, by simpa using hlen, Or.inr (Or.inl ?_)⟩
          refine ⟨hg, ha, hd, hcache, href, ?_⟩
          intro pc' hpc'
          rcases List.mem_or_eq_of_mem_set hpc' with h | h
          · exact hcallers pc' h
          · exact Or.inr (Or.inr h)
        · subst hpc; cases hstep
        · subst hpc; cases hstep
      · -- phase 3: activate in flight
        rcases hcallers pc hpcmem with hpc | hpc | hpc
        · subst hpc
          have hcv : credValid s.cachedToken s.now = false := by
            rw [hcache, hnow]; exact hc
          have hio : s.refresher.isSome = true := by rw [href]; rfl
          rw [hcv, hio] at hstep
          simp only [Bool.false_eq_true, if_false, if_true, Option.some.injEq] at hstep
          subst hstep
          refine ⟨hnow, hcfg, by simpa using hlen, Or.inr (Or.inr (Or.inl ?_))⟩
          refine ⟨hg, ha, hd, hcache, href, ?_⟩
          intro pc' hpc'
          rcases List.mem_or_eq_of_mem_set hpc' with h | h
          · exact hcallers pc' h
          · exact Or.inr (Or.inr h)
        · subst hpc; cases hstep
        · subst hpc; cases hstep
      · -- phase 4: refresh completed, cache valid
        have hvalid : credValid s.cachedToken s.now = true := by
          rw [hcache, hnow]; exact credValid_fresh T hT now
        have htok : s.cachedToken.token.getD "" = T := by simp [hcache]
        rcases hcallers pc hpcmem with hpc | hpc | hpc | hpc
        · subst hpc
          rw [hvalid, htok] at hstep
          simp only [if_true, Option.some.injEq] at hstep
          subst hstep
          refine ⟨hnow, hcfg, by simpa using hlen, Or.inr (Or.inr (Or.inr ?_))⟩
          refine ⟨hg, ha, hd, hcache, href, ?_⟩
          intro pc' hpc'
          rcases List.mem_or_eq_of_mem_set hpc' with h | h
          · exact hcallers pc' h
          · exact Or.inr (Or.inr (Or.inr h))
        · subst hpc
          simp only [Option.some.injEq] at hstep
          subst hstep
          refine ⟨hnow, hcfg, by simpa using hlen, Or.inr (Or.inr (Or.inr ?_))⟩
          refine ⟨hg, ha, hd, hcache, href, ?_⟩
          intro pc' hpc'
          rcases List.mem_or_eq_of_mem_set hpc' with h | h
          · exact hcallers pc' h
          · exact Or.inr (Or.inr (Or.inr h))
        · subst hpc
          rw [hvalid, htok] at hstep
          simp only [if_true, Option.some.injEq] at hstep
          subst hstep
          refine ⟨hnow, hcfg, by simpa using hlen, Or.inr (Or.inr (Or.inr ?_))⟩
          refine ⟨hg, ha, hd, hcache, href, ?_⟩
          intro pc' hpc'
          rcases List.mem_or_eq_of_mem_set hpc' with h | h
          · exact hcallers pc' h
          · exact Or.inr (Or.inr (Or.inr h))
        · subst hpc; cases hstep
  | genOk t =>
    have ht : t = T := by simpa [okLabel] using hl
    subst ht
    rcases hphase with ⟨hg, ha, hd, hcache, href, hcallers⟩ |
      ⟨hg, ha, hd, hcache, href, hcallers⟩ |
      ⟨hg, ha, hd, hcache, href, hcallers⟩ |
      ⟨hg, ha, hd, hcache, href, hcallers⟩
    · simp only [step, href] at hstep; cases hstep
    · simp only [step, href, hT, if_neg, ite_false] at hstep
      cases hstep
      refine ⟨hnow, hcfg, hlen, Or.inr (Or.inr (Or.inl ?_))⟩
      exact ⟨hg, by simpa using ha, hd, hcache, rfl, hcallers⟩
    · simp only [step, href] at hstep; cases hstep
    · simp only [step, href] at hstep; cases hstep
  | genFail m => simp [okLabel] at hl
  | actOk =>
    rcases hphase with ⟨hg, ha, hd, hcache, href, hcallers⟩ |
      ⟨hg, ha, hd, hcache, href, hcallers⟩ |
      ⟨hg, ha, hd, hcache, href, hcallers⟩ |
      ⟨hg, ha, hd, hcache, href, hcallers⟩
    · simp only [step, href] at hstep; cases hstep
    · simp only [step, href] at hstep; cases hstep
    · simp only [step, href] at hstep
      cases hstep
      refine ⟨hnow, hcfg, by simpa [settleRefresh, settleWaiters] using hlen,
        Or.inr (Or.inr (Or.inr ?_))⟩
      refine ⟨by simpa [settleRefresh] using hg, by simpa [settleRefresh] using ha,
        by simpa [settleRefresh] using hd, by simp [settleRefresh, hnow],
        rfl, ?_⟩
      intro pc' hpc'
      have hpc'' : pc' ∈ settleWaiters (.ok T) s.callers := by
        simpa [settleRefresh] using hpc'
      rcases settleWaiters_shape (.ok T) s.callers pc' hpc'' with ⟨hmem, hno1, hno2⟩ | h | h
      · rcases hcallers pc' hmem with h | h | h
        · exact Or.inl h
        · exact absurd h hno1
        · exact absurd h hno2
      · exact Or.inr (Or.inl h)
      · exact Or.inr (Or.inr (Or.inl h))
    · simp only [step, href] at hstep; cases hstep
  | actFail m => simp [okLabel] at hl

theorem c1_run (c0 : Credential) (now : Nat) (T : String) (n : Nat)
    (hc : credValid c0 now = false) (hT : T ≠ "") :
    ∀ (ls : List TLabel) (s : TokenState), ls.all (okLabel T) = true →
      C1Inv c0 now T n s → ∀ s', runLabels ls s = some s' → C1Inv c0 now T n s' := by
  intro ls
  induction ls with
  | nil =>
    intro s _ hinv s' hrun
    cases hrun
    exact hinv
  | cons l rest ih =>
    intro s hall hinv s' hrun
    rw [List.all_cons, Bool.and_eq_true] at hall
    obtain ⟨hl, hall2⟩ := hall
    simp only [runLabels] at hrun
    cases hstep : step l s with
    | none => rw [hstep] at hrun; cases hrun
    | some s1 =>
      rw [hstep] at hrun
      exact ih s1 hall2
        (c1_step_preserve c0 now T n hc hT l hl s s1 hinv hstep) s' hrun

theorem c1_init (c0 : Credential) (now : Nat) (T : String) (n : Nat) :
    C1Inv c0 now T n (initTokenState now c0 true n) := by
  refine ⟨rfl, rfl, by simp [initTokenState], Or.inl ⟨rfl, rfl, rfl, rfl, rfl, ?_⟩⟩
  intro pc hpc
  exact List.eq_of_mem_replicate hpc

/-- C1: in any interleaving of `N ≥ 1` concurrent `getAuthToken` callers
started with no valid cached credential, where every gateway response
succeeds and issues the (non-empty) token `T`, once every caller has
completed the generate call and the activate call have each been issued
exactly once system-wide, and every caller returned the same token `T`.
(The single-flight property rests on the fact that the segment that
observes `tokenRefreshPromise === null` and assigns the new promise has no
intervening `await`.) -/
theorem claim_c1 (now : Nat) (c0 : Credential) (n : Nat) (T : String)
    (ls : List TLabel) (s : TokenState)
    (hc : credValid c0 now = false) (hT : T ≠ "")
    (hls : ls.all (okLabel T) = true)
    (hrun : runLabels ls (initTokenState now c0 true n) = some s)
    (hdone : ∀ pc ∈ s.callers, ∃ r, pc = .done r)
    (hn : 1 ≤ n) :
    s.genCalls = 1 ∧ s.actCalls = 1 ∧ ∀ pc ∈ s.callers, pc = .done (.ok T) := by
  have hinv := c1_run c0 now T n hc hT ls (initTokenState now c0 true n) hls
    (c1_init c0 now T n) s hrun
  obtain ⟨hnow, hcfg, hlen, hphase⟩ := hinv
  have hne : s.callers ≠ [] := by
    intro h
    rw [h] at hlen
    simp at hlen
    omega
  obtain ⟨pc0, hpc0⟩ := List.exists_mem_of_ne_nil s.callers hne
  obtain ⟨r0, hr0⟩ := hdone pc0 hpc0
  rcases hphase with ⟨_, _, _, _, _, hcallers⟩ | ⟨_, _, _, _, _, hcallers⟩ |
    ⟨_, _, _, _, _, hcallers⟩ | ⟨hg, ha, _, _, _, hcallers⟩
  · have := hcallers pc0 hpc0
    rw [this] at hr0
    cases hr0
  · rcases hcallers pc0 hpc0 with h | h | h <;> (rw [h] at hr0; cases hr0)
  · rcases hcallers pc0 hpc0 with h | h | h <;> (rw [h] at hr0; cases hr0)
  · refine ⟨hg, ha, fun pc hpc => ?_⟩
    obtain ⟨r, hr⟩ := hdone pc hpc
    rcases hcallers pc hpc with h | h | h | h
    · rw [h] at hr; cases hr
    · rw [h] at hr; cases hr
    · rw [h] at hr; cases hr
    · exact h

/-- C1 witness: two concurrent callers, an invalid initial credential and
a successful gateway issuing `"T"`; after the schedule completes, exactly
one generate and one activate call happened and both callers returned
`"T"`. -/
theorem claim_c1_witness :
    runLabels [.caller 0, .caller 1, .genOk "T", .actOk, .caller 1, .caller 0]
        (initTokenState 0 { token := none, expiry := 0 } true 2) =
      some { now := 0, cachedToken := { token := some "T", expiry := 518400000 },
             refresher := none, genCalls := 1, actCalls := 1, diskWrites := 1,
             configOk := true,
             callers := [.done (.ok "T"), .done (.ok "T")] } ∧
    ({ now := 0, cachedToken := { token := some "T", expiry := 518400000 },
       refresher := none, genCalls := 1, actCalls := 1, diskWrites := 1,
       configOk := true,
       callers := [.done (.ok "T"), .done (.ok "T")] } : TokenState).genCalls = 1 ∧
    ({ now := 0, cachedToken := { token := some "T", expiry := 518400000 },
       refresher := none, genCalls := 1, actCalls := 1, diskWrites := 1,
       configOk := true,
       callers := [.done (.ok "T"), .done (.ok "T")] } : TokenState).actCalls = 1 :=
  ⟨by decide,
   (claim_c1 0 { token := none, expiry := 0 } 2 "T"
      [.caller 0, .caller 1, .genOk "T", .actOk, .caller 1, .caller 0]
      { now := 0, cachedToken := { token := some "T", expiry := 518400000 },
        refresher := none, genCalls := 1, actCalls := 1, diskWrites := 1,
        configOk := true,
        callers := [.done (.ok "T"), .done (.ok "T")] }
      (by decide) (by decide) (by decide) (by decide)
      (by
        intro pc hpc
        rcases List.mem_cons.mp hpc with h | h
        · exact ⟨.ok "T", h⟩
        · rcases List.mem_cons.mp h with h2 | h2
          · exact ⟨.ok "T", h2⟩
          · simp at h2)
      (by decide)).1,
   (claim_c1 0 { token := none, expiry := 0 } 2 "T"
      [.caller 0, .caller 1, .genOk "T", .actOk, .caller 1, .caller 0]
      { now := 0, cachedToken := { token := some "T", expiry := 518400000 },
        refresher := none, genCalls := 1, actCalls := 1, diskWrites := 1,
        configOk := true,
        callers := [.done (.ok "T"), .done (.ok "T")] }
      (by decide) (by decide) (by decide) (by decide)
      (by
        intro pc hpc
        rcases List.mem_cons.mp hpc with h | h
        · exact ⟨.ok "T", h⟩
        · rcases List.mem_cons.mp h with h2 | h2
          · exact ⟨.ok "T", h2⟩
          · simp at h2)
      (by decide)).2.1⟩

/-! ### C2 — failed refreshes surface errors and never touch the cache -/

/-- Labels allowed in a run in which no activation ever succeeds (the
generate call or the activate call fails in every refresh attempt). -/
def noActOk : TLabel → Bool
  | .actOk => false
  | _ => true

theorem stepCaller_start_isSome (s : TokenState) (i : Nat)
    (h : s.callers.get? i = some .start) : (stepCaller s i).isSome = true := by
  unfold stepCaller
  rw [h]
  by_cases h1 : credValid s.cachedToken s.now = true
  · simp [h1]
  · by_cases h2 : s.refresher.isSome = true
    · simp [h1, h2]
    · by_cases h3 : s.configOk
      · simp [h1, h2, h3]
      · simp [h1, h2, h3]

/-- Invariant for activation-free runs started from an invalid credential:
the in-memory credential still equals the initial one, nothing has been
written to disk, every settled promise result and every completed call is
an error, and waiting callers only exist while a refresh is in flight. -/
def C2Inv (c0 : Credential) (now : Nat) (n : Nat) (s : TokenState) : Prop :=
  s.now = now ∧ s.callers.length = n ∧ s.cachedToken = c0 ∧ s.diskWrites = 0 ∧
  (∀ pc ∈ s.callers, ∀ r : RunResult,
      (pc = .done r ∨ pc = .resumeOwner r ∨ pc = .resumeOther r) → ∃ m, r = .err m) ∧
  (s.refresher = none → ∀ pc ∈ s.callers, pc ≠ .waitOwner ∧ pc ≠ .waitOther)

theorem c2_step_preserve (c0 : Credential) (now : Nat) (n : Nat)
    (hc : credValid c0 now = false)
    (l : TLabel) (hl : noActOk l = true) (s s' : TokenState)
    (hinv : C2Inv c0 now n s) (hstep : step l s = some s') : C2Inv c0 now n s' := by
  obtain ⟨hnow, hlen, hcache, hd, herr, hwait⟩ := hinv
  cases l with
  | caller i =>
    have hsc : step (.caller i) s = stepCaller s i := rfl
    rw [hsc] at hstep
    unfold stepCaller at hstep
    cases hget : s.callers.get? i with
    | none => rw [hget] at hstep; cases hstep
    | some pc =>
      rw [hget] at hstep
      have hpcmem : pc ∈ s.callers := List.get?_mem hget
      cases pc with
      | start =>
        have hcv : credValid s.cachedToken s.now = false := by
          rw [hcache, hnow]; exact hc
        rw [hcv] at hstep
        simp only [Bool.false_eq_true, if_false] at hstep
        cases href : s.refresher with
        | some rpc =>
          have hio : s.refresher.isSome = true := by rw [href]; rfl
          rw [hio] at hstep
          simp only [if_true, Option.some.injEq] at hstep
          subst hstep
          refine ⟨hnow, by simpa using hlen, hcache, hd, ?_, ?_⟩
          · intro pc' hpc' r hr
            rcases List.mem_or_eq_of_mem_set hpc' with h | h
            · exact herr pc' h r hr
            · subst h; rcases hr with h | h | h <;> cases h
          · intro hrefn
            rw [show ({ s with callers := s.callers.set i CallerPc.waitOther } :
              TokenState).refresher = s.refresher from rfl, href] at hrefn
            cases hrefn
        | none =>
          have hio : s.refresher.isSome = false := by rw [href]; rfl
          rw [hio] at hstep
          simp only [Bool.false_eq_true, if_false] at hstep
          cases hcfgv : s.configOk with
          | false =>
            rw [hcfgv] at hstep
            simp only [Bool.not_false, if_true, Option.some.injEq] at hstep
            subst hstep
            refine ⟨hnow, by simpa using hlen, hcache, hd, ?_, ?_⟩
            · intro pc' hpc' r hr
              rcases List.mem_or_eq_of_mem_set hpc' with h | h
              · exact herr pc' h r hr
              · subst h
                rcases hr with h | h | h
                · exact ⟨_, (CallerPc.done.inj h).symm⟩
                · cases h
                · cases h
            · intro _ pc' hpc'
              rcases List.mem_or_eq_of_mem_set hpc' with h | h
              · exact hwait href pc' h
              · subst h; exact ⟨by simp, by simp⟩
          | true =>
            rw [hcfgv] at hstep
            simp only [Bool.not_true, Bool.false_eq_true, if_false,
              Option.some.injEq] at hstep
            subst hstep
            refine ⟨hnow, by simpa using hlen, hcache, hd, ?_, ?_⟩
            · intro pc' hpc' r hr
              rcases List.mem_or_eq_of_mem_set hpc' with h | h
              · exact herr pc' h r hr
              · subst h; rcases hr with h | h | h <;> cases h
            · intro hrefn
              rw [show ({ beginRefresh s with callers := s.callers.set i CallerPc.waitOwner } :
                TokenState).refresher = some .awaitGen from rfl] at hrefn
              cases hrefn
      | waitOwner => cases hstep
      | waitOther => cases hstep
      | done r => cases hstep
      | resumeOwner r =>
        obtain ⟨m, hm⟩ := herr _ hpcmem r (Or.inr (Or.inl rfl))
        subst hm
        simp only [Option.some.injEq] at hstep
        subst hstep
        refine ⟨hnow, by simpa using hlen, hcache, hd, ?_, ?_⟩
        · intro pc' hpc' r2 hr2
          rcases List.mem_or_eq_of_mem_set hpc' with h | h
          · exact herr pc' h r2 hr2
          · subst h
            rcases hr2 with h | h | h
            · exact ⟨m, (CallerPc.done.inj h).symm⟩
            · cases h
            · cases h
        · intro hrefn pc' hpc'
          rcases List.mem_or_eq_of_mem_set hpc' with h | h
          · exact hwait hrefn pc' h
          · subst h; exact ⟨by simp, by simp⟩
      | resumeOther r =>
        obtain ⟨m, hm⟩ := herr _ hpcmem r (Or.inr (Or.inr rfl))
        subst hm
        simp only [Option.some.injEq] at hstep
        subst hstep
        refine ⟨hnow, by simpa using hlen, hcache, hd, ?_, ?_⟩
        · intro pc' hpc' r2 hr2
          rcases List.mem_or_eq_of_mem_set hpc' with h | h
          · exact herr pc' h r2 hr2
          · subst h
            rcases hr2 with h | h | h
            · exact ⟨m, (CallerPc.done.inj h).symm⟩
            · cases h
            · cases h
        · intro hrefn pc' hpc'
          rcases List.mem_or_eq_of_mem_set hpc' with h | h
          · exact hwait hrefn pc' h
          · subst h; exact ⟨by simp, by simp⟩
  | genOk t =>
    cases href : s.refresher with
    | none => simp only [step, href] at hstep; cases hstep
    | some rpc =>
      cases rpc with
      | awaitAct t2 => simp only [step, href] at hstep; cases hstep
      | awaitGen =>
        simp only [step, href] at hstep
        by_cases ht : t = ""
        · rw [if_pos ht] at hstep
          simp only [Option.some.injEq] at hstep
          subst hstep
          refine ⟨hnow, by simpa [settleRefresh, settleWaiters] using hlen,
            hcache, hd, ?_, ?_⟩
          · intro pc' hpc' r hr
            have hpc2 : pc' ∈ settleWaiters (.err "Token not found in API response")
                s.callers := by simpa [settleRefresh] using hpc'
            rcases settleWaiters_shape _ s.callers pc' hpc2 with ⟨hmem, _, _⟩ | h | h
            · exact herr pc' hmem r hr
            · subst h
              rcases hr with h | h | h
              · cases h
              · exact ⟨_, (CallerPc.resumeOwner.inj h).symm⟩
              · cases h
            · subst h
              rcases hr with h | h | h
              · cases h
              · cases h
              · exact ⟨_, (CallerPc.resumeOther.inj h).symm⟩
          · intro _ pc' hpc'
            have hpc2 : pc' ∈ settleWaiters (.err "Token not found in API response")
                s.callers := by simpa [settleRefresh] using hpc'
            rcases settleWaiters_shape _ s.callers pc' hpc2 with ⟨_, hno1, hno2⟩ | h | h
            · exact ⟨hno1, hno2⟩
            · subst h; exact ⟨by simp, by simp⟩
            · subst h; exact ⟨by simp, by simp⟩
        · rw [if_neg ht] at hstep
          simp only [Option.some.injEq] at hstep
          subst hstep
          refine ⟨hnow, hlen, hcache, hd, herr, ?_⟩
          intro hrefn
          rw [show ({ s with refresher := some (.awaitAct t), actCalls := s.actCalls + 1 } :
            TokenState).refresher = some (.awaitAct t) from rfl] at hrefn
          cases hrefn
  | genFail m =>
    cases href : s.refresher with
    | none => simp only [step, href] at hstep; cases hstep
    | some rpc =>
      cases rpc with
      | awaitAct t2 => simp only [step, href] at hstep; cases hstep
      | awaitGen =>
        simp only [step, href, Option.some.injEq] at hstep
        subst hstep
        refine ⟨hnow, by simpa [settleRefresh, settleWaiters] using hlen,
          hcache, hd, ?_, ?_⟩
        · intro pc' hpc' r hr
          have hpc2 : pc' ∈ settleWaiters (.err m) s.callers := by
            simpa [settleRefresh] using hpc'
          rcases settleWaiters_shape _ s.callers pc' hpc2 with ⟨hmem, _, _⟩ | h | h
          · exact herr pc' hmem r hr
          · subst h
            rcases hr with h | h | h
            · cases h
            · exact ⟨_, (CallerPc.resumeOwner.inj h).symm⟩
            · cases h
          · subst h
            rcases hr with h | h | h
            · cases h
            · cases h
            · exact ⟨_, (CallerPc.resumeOther.inj h).symm⟩
        · intro _ pc' hpc'
          have hpc2 : pc' ∈ settleWaiters (.err m) s.callers := by
            simpa [settleRefresh] using hpc'
          rcases settleWaiters_shape _ s.callers pc' hpc2 with ⟨_, hno1, hno2⟩ | h | h
          · exact ⟨hno1, hno2⟩
          · subst h; exact ⟨by simp, by simp⟩
          · subst h; exact ⟨by simp, by simp⟩
  | actOk => simp [noActOk] at hl
  | actFail m =>
    cases href : s.refresher with
    | none => simp only [step, href] at hstep; cases hstep
    | some rpc =>
      cases rpc with
      | awaitGen => simp only [step, href] at hstep; cases hstep
      | awaitAct t2 =>
        simp only [step, href, Option.some.injEq] at hstep
        subst hstep
        refine ⟨hnow, by simpa [settleRefresh, settleWaiters] using hlen,
          hcache, hd, ?_, ?_⟩
        · intro pc' hpc' r hr
          have hpc2 : pc' ∈ settleWaiters (.err m) s.callers := by
            simpa [settleRefresh] using hpc'
          rcases settleWaiters_shape _ s.callers pc' hpc2 with ⟨hmem, _, _⟩ | h | h
          · exact herr pc' hmem r hr
          · subst h
            rcases hr with h | h | h
            · cases h
            · exact ⟨_, (CallerPc.resumeOwner.inj h).symm⟩
            · cases h
          · subst h
            rcases hr with h | h | h
            · cases h
            · cases h
            · exact ⟨_, (CallerPc.resumeOther.inj h).symm⟩
        · intro _ pc' hpc'
          have hpc2 : pc' ∈ settleWaiters (.err m) s.callers := by
            simpa [settleRefresh] using hpc'
          rcases settleWaiters_shape _ s.callers pc' hpc2 with ⟨_, hno1, hno2⟩ | h | h
          · exact ⟨hno1, hno2⟩
          · subst h; exact ⟨by simp, by simp⟩
          · subst h; exact ⟨by simp, by simp⟩

theorem c2_run (c0 : Credential) (now : Nat) (n : Nat)
    (hc : credValid c0 now = false) :
    ∀ (ls : List TLabel) (s : TokenState), ls.all noActOk = true →
      C2Inv c0 now n s → ∀ s', runLabels ls s = some s' → C2Inv c0 now n s' := by
  intro ls
  induction ls with
  | nil =>
    intro s _ hinv s' hrun
    cases hrun
    exact hinv
  | cons l rest ih =>
    intro s hall hinv s' hrun
    rw [List.all_cons, Bool.and_eq_true] at hall
    obtain ⟨hl, hall2⟩ := hall
    simp only [runLabels] at hrun
    cases hstep : step l s with
    | none => rw [hstep] at hrun; cases hrun
    | some s1 =>
      rw [hstep] at hrun
      exact ih s1 hall2 (c2_step_preserve c0 now n hc l hl s s1 hinv hstep) s' hrun

theorem c2_init (c0 : Credential) (now : Nat) (cfg : Bool) (n : Nat) :
    C2Inv c0 now n (initTokenState now c0 cfg n) := by
  refine ⟨rfl, by simp [initTokenState], rfl, rfl, ?_, ?_⟩
  · intro pc hpc r hr
    have := List.eq_of_mem_replicate hpc
    subst this
    rcases hr with h | h | h <;> cases h
  · intro _ pc hpc
    have := List.eq_of_mem_replicate hpc
    subst this
    exact ⟨by simp, by simp⟩

/-- C2: in any run started from an invalid cached credential in which no
activation ever succeeds — i.e. every refresh attempt fails at the
generate or at the activate call — the in-memory cached credential still
equals the initial one (no partial update) and nothing was persisted to
disk; every caller of `getAuthToken` that has completed did so by raising
an error; and while some caller is still unfinished, an allowed transition
remains enabled, so every caller eventually completes (with an error). -/
theorem claim_c2 (now : Nat) (c0 : Credential) (cfg : Bool) (n : Nat)
    (ls : List TLabel) (s : TokenState)
    (hc : credValid c0 now = false)
    (hls : ls.all noActOk = true)
    (hrun : runLabels ls (initTokenState now c0 cfg n) = some s) :
    s.cachedToken = c0 ∧ s.diskWrites = 0 ∧
    (∀ pc ∈ s.callers, ∀ r : RunResult, pc = .done r → ∃ m, r = .err m) ∧
    ((∃ pc ∈ s.callers, ∀ r : RunResult, pc ≠ .done r) →
      ∃ l2, noActOk l2 = true ∧ (step l2 s).isSome = true) := by
  have hinv := c2_run c0 now n hc ls (initTokenState now c0 cfg n) hls
    (c2_init c0 now cfg n) s hrun
  obtain ⟨hnow, hlen, hcache, hd, herr, hwait⟩ := hinv
  refine ⟨hcache, hd, fun pc hpc r hr => herr pc hpc r (Or.inl hr), ?_⟩
  rintro ⟨pc, hpc, hnd⟩
  obtain ⟨i, hi⟩ := List.get?_of_mem hpc
  cases pc with
  | start =>
    exact ⟨.caller i, rfl, by
      have : step (.caller i) s = stepCaller s i := rfl
      rw [this]
      exact stepCaller_start_isSome s i hi⟩
  | waitOwner =>
    cases href : s.refresher with
    | none => exact absurd rfl (hwait href _ hpc).1
    | some rpc =>
      cases rpc with
      | awaitGen =>
        exact ⟨.genFail "error", rfl, by simp [step, href]⟩
      | awaitAct t =>
        exact ⟨.actFail "error", rfl, by simp [step, href]⟩
  | waitOther =>
    cases href : s.refresher with
    | none => exact absurd rfl (hwait href _ hpc).2
    | some rpc =>
      cases rpc with
      | awaitGen =>
        exact ⟨.genFail "error", rfl, by simp [step, href]⟩
      | awaitAct t =>
        exact ⟨.actFail "error", rfl, by simp [step, href]⟩
  | resumeOwner r =>
    refine ⟨.caller i, rfl, ?_⟩
    have hs : step (.caller i) s = stepCaller s i := rfl
    rw [hs]
    unfold stepCaller
    rw [hi]
    rfl
  | resumeOther r =>
    obtain ⟨m, hm⟩ := herr _ hpc r (Or.inr (Or.inr rfl))
    subst hm
    refine ⟨.caller i, rfl, ?_⟩
    have hs : step (.caller i) s = stepCaller s i := rfl
    rw [hs]
    unfold stepCaller
    rw [hi]
    rfl
  | done r => exact absurd rfl (hnd r)

/-- C2 witness: one caller, the generate call fails with `"boom"` — the
cached credential is unchanged, nothing was persisted, and the caller
completed with an error. -/
theorem claim_c2_witness :
    runLabels [.caller 0, .genFail "boom", .caller 0]
        (initTokenState 0 { token := none, expiry := 0 } true 1) =
      some { now := 0, cachedToken := { token := none, expiry := 0 },
             refresher := none, genCalls := 1, actCalls := 0, diskWrites := 0,
             configOk := true, callers := [.done (.err "boom")] } ∧
    ({ now := 0, cachedToken := { token := none, expiry := 0 },
       refresher := none, genCalls := 1, actCalls := 0, diskWrites := 0,
       configOk := true,
       callers := [.done (.err "boom")] } : TokenState).cachedToken =
      { token := none, expiry := 0 } ∧
    ({ now := 0, cachedToken := { token := none, expiry := 0 },
       refresher := none, genCalls := 1, actCalls := 0, diskWrites := 0,
       configOk := true,
       callers := [.done (.err "boom")] } : TokenState).diskWrites = 0 :=
  ⟨by decide,
   (claim_c2 0 { token := none, expiry := 0 } true 1
      [.caller 0, .genFail "boom", .caller 0]
      { now := 0, cachedToken := { token := none, expiry := 0 },
        refresher := none, genCalls := 1, actCalls := 0, diskWrites := 0,
        configOk := true, callers := [.done (.err "boom")] }
      (by decide) (by decide) (by decide)).1,
   (claim_c2 0 { token := none, expiry := 0 } true 1
      [.caller 0, .genFail "boom", .caller 0]
      { now := 0, cachedToken := { token := none, expiry := 0 },
        refresher := none, genCalls := 1, actCalls := 0, diskWrites := 0,
        configOk := true, callers := [.done (.err "boom")] }
      (by decide) (by decide) (by decide)).2.1⟩

end SmsApi
